import Mathlib

/-!
Verification of the zapi/nevr entity-to-REST-API engine.

This file gives a shallow embedding, in Lean 4, of the parts of the
repository that the checked properties talk about:

* the JavaScript value / object-map primitives the code manipulates,
* the entity data model (`FieldDef`, `RelationDef`, `Entity`) from
  `packages/nevr/src/types.ts`,
* the authorization rule engine (`resolveRule`, `checkRules`) from the
  rules module,
* the input validation engine (`validateField`, `validateInput`),
* the error normalization layer (`errorCodeToStatus`, `handleError`)
  from `packages/nevr/src/error.ts`,
* the entity builder (`EntityBuilder.ownedBy`),
* the plugin extension resolver (`applyExtension`, `resolvePlugin`,
  `toZapiEntity`) from `packages/nevr/src/plugins/core/resolver.ts`,
  modelled with an explicit heap of field-definition objects so that
  JavaScript object aliasing is represented faithfully,
* the plugin registry initializer (`topologicalSort`,
  `initializeAllPlugins`).

JavaScript maps are modelled as insertion-ordered association lists,
mutation as explicit state passing, `async` control flow as sequential
evaluation (the pipeline awaits every step), and thrown exceptions as
`Except` values.  Functions stored in data (custom rule predicates,
relation thunks) are modelled as Lean functions returning an explicit
outcome.
-/

namespace Zapi

/-! ## JavaScript values and object maps -/

/-- A JavaScript runtime value, as far as the engine discriminates them:
`typeof` string / number / boolean, `null`, `undefined`, `Date` instances
(payload: epoch milliseconds), and a catch-all class `vOther` for every
other object shape (arrays, plain objects, functions), which the
validation code never inspects further.  Numbers are modelled as `Rat`. -/
inductive JsValue where
  | vUndef
  | vNull
  | vStr (s : String)
  | vNum (q : Rat)
  | vBool (b : Bool)
  | vDate (millis : Int)
  | vOther
deriving DecidableEq, Repr

/-- JavaScript `obj[key]` on an insertion-ordered object map. -/
def jsGet {α : Type} (m : List (String × α)) (k : String) : Option α :=
  (m.find? (fun kv => kv.1 == k)).map (fun kv => kv.2)

/-- JavaScript `obj[key] = v`: replaces the value in place if the key is
present, otherwise appends the key at the end (JS property order). -/
def jsSet {α : Type} (m : List (String × α)) (k : String) (v : α) : List (String × α) :=
  match m with
  | [] => [(k, v)]
  | kv :: rest => if kv.1 == k then (k, v) :: rest else kv :: jsSet rest k v

/-- JavaScript `delete obj[key]`. -/
def jsDel {α : Type} (m : List (String × α)) (k : String) : List (String × α) :=
  match m with
  | [] => []
  | kv :: rest => if kv.1 == k then rest else kv :: jsDel rest k

/-- Truthiness of a possibly-absent JavaScript string (`undefined` and
`""` are falsy). -/
def strTruthy : Option String → Bool
  | none => false
  | some s => s ≠ ""

/-- JavaScript `a || b` for string-or-undefined values, returning a
string default. -/
def jsStrOrD (a : Option String) (d : String) : String :=
  if strTruthy a then a.getD d else d

/-- JavaScript `a || b` where both sides are string-or-undefined. -/
def jsStrOr (a b : Option String) : Option String :=
  if strTruthy a then a else b

/-- JavaScript `x === undefined` for an optional slot whose stored value
might itself be literal `undefined`. -/
def jsUndef : Option JsValue → Bool
  | none => true
  | some .vUndef => true
  | some _ => false

/-! ## Core entity data model (`types.ts`) -/

/-- Scalar field type (`FieldType` in `types.ts`). -/
inductive FieldType where
  | string
  | text
  | int
  | float
  | boolean
  | datetime
  | json
deriving DecidableEq, Repr

/-- `onDelete` policy of a relation. -/
inductive DeleteAction where
  | cascade
  | setNull
  | restrict
deriving DecidableEq, Repr

/-- Relation kind. -/
inductive RelationType where
  | belongsTo
  | hasMany
  | hasOne
deriving DecidableEq, Repr

/-- `RelationDef` from `types.ts`.  The source stores the target entity
as a zero-argument thunk (to break import cycles); the thunk is fully
determined by the target entity's name, so the embedding stores that
name directly. -/
structure RelationDef where
  type : RelationType
  entityName : String
  foreignKey : String
  references : String
  onDelete : Option DeleteAction := none
deriving DecidableEq, Repr

/-- `FieldDef` from `types.ts`. -/
structure FieldDef where
  type : FieldType
  optional : Bool
  unique : Bool
  default : Option JsValue := none
  min : Option Rat := none
  max : Option Rat := none
  isEmail : Bool := false
  relation : Option RelationDef := none
deriving DecidableEq, Repr

/-- CRUD operation. -/
inductive Operation where
  | create
  | read
  | update
  | delete
  | list
deriving DecidableEq, Repr

/-- The authenticated user attached to a request (`User` in `types.ts`;
only the properties the engine reads are modelled). -/
structure User where
  id : String
  role : Option String := none
deriving DecidableEq, Repr

/-- Context handed to a rule predicate (`RuleContext` in `types.ts`). -/
structure RuleContext where
  user : Option User
  input : List (String × JsValue)
  resource : Option (List (String × JsValue))
  entity : String
  operation : Operation

/-- Outcome of awaiting a rule predicate: a boolean, or a thrown
exception carrying a message. -/
inductive RuleOutcome where
  | ok (b : Bool)
  | exn (msg : String)
deriving DecidableEq, Repr

/-- A rule predicate (`RuleFn`).  The source type is
`(ctx) => boolean | Promise<boolean>`; awaiting it yields a boolean or
throws, which the embedding returns explicitly. -/
def RuleFn : Type := RuleContext → RuleOutcome

/-- `RuleDef`: a built-in rule name or a custom predicate.  The TS type
restricts names to the four built-ins, but at runtime any string can
occur, so the name constructor carries an arbitrary string. -/
inductive RuleDef where
  | name (s : String)
  | custom (f : RuleFn)

/-- `Partial<Record<Operation, RuleDef[]>>`. -/
structure RulesMap where
  create : Option (List RuleDef) := none
  read : Option (List RuleDef) := none
  update : Option (List RuleDef) := none
  delete : Option (List RuleDef) := none
  list : Option (List RuleDef) := none

/-- `entity.config.rules[operation]`. -/
def RulesMap.get (r : RulesMap) : Operation → Option (List RuleDef)
  | .create => r.create
  | .read => r.read
  | .update => r.update
  | .delete => r.delete
  | .list => r.list

/-- `EntityConfig` from `types.ts`. -/
structure EntityConfig where
  fields : List (String × FieldDef)
  rules : RulesMap
  ownerField : Option String := none
  timestamps : Bool := true

/-- The plugin metadata stub the resolver attaches in place to each
resolved entity (`entity.plugin = ...` in `resolver.ts`). -/
structure PluginStub where
  id : String
  basePath : Option String := none
  routePath : Option String := none
  internal : Bool := false
deriving DecidableEq, Repr

/-- `Entity` from `types.ts`.  `plugin` is `none` for entities built by
the entity DSL or by `toZapiEntity`; the plugin resolver attaches a
`PluginStub` to the entities it produces. -/
structure Entity where
  name : String
  config : EntityConfig
  plugin : Option PluginStub := none

/-! ## Authorization rule engine (rules module) -/

/-- Built-in rule `everyone`: anyone can access. -/
def everyone : RuleFn := fun _ => .ok true

/-- Built-in rule `authenticated`: must be logged in. -/
def authenticated : RuleFn := fun ctx => .ok ctx.user.isSome

/-- Built-in rule `admin`: `ctx.user?.role === "admin"`. -/
def admin : RuleFn := fun ctx =>
  .ok (match ctx.user with
    | some u => u.role == some "admin"
    | none => false)

/-- Built-in rule `owner(ownerField)`: requires a user; allows when no
resource is present (create path); otherwise compares
`resource[ownerField]` with `user.id`. -/
def owner (ownerField : String) : RuleFn := fun ctx =>
  .ok (match ctx.user with
    | none => false
    | some u =>
      match ctx.resource with
      | none => true
      | some res => jsGet res ownerField == some (.vStr u.id))

/-- `resolveRule`: maps a rule definition to a rule function; an
unrecognized built-in name falls to the `default` switch case, which
returns `everyone`. -/
def resolveRule (rule : RuleDef) (ownerField : String) : RuleFn :=
  match rule with
  | .custom f => f
  | .name s =>
    if s = "everyone" then everyone
    else if s = "authenticated" then authenticated
    else if s = "admin" then admin
    else if s = "owner" then owner ownerField
    else everyone

/-- Result of `checkRules` (`{allowed: boolean; error?: string}`; the
source never sets `error` on the allowed side). -/
inductive CheckResult where
  | allowed
  | denied (error : String)
deriving DecidableEq, Repr

/-- The rule-context fields the caller passes to `checkRules`
(`Omit<RuleContext, "entity" | "operation">`). -/
structure CheckCtx where
  user : Option User
  input : List (String × JsValue)
  resource : Option (List (String × JsValue))

/-- The full context `checkRules` builds before evaluating rules. -/
def fullCtx (entity : Entity) (operation : Operation) (ctx : CheckCtx) : RuleContext :=
  { user := ctx.user
    input := ctx.input
    resource := ctx.resource
    entity := entity.name
    operation := operation }

/-- The `for (const ruleDef of rules)` loop body of `checkRules`: every
rule must pass; a falsy result is reported as "Authentication required"
when no user is present and "Permission denied" otherwise; a thrown
predicate surfaces its own message. -/
def checkRulesLoop (rules : List RuleDef) (ownerField : String) (ctx : RuleContext) : CheckResult :=
  match rules with
  | [] => .allowed
  | r :: rest =>
    match resolveRule r ownerField ctx with
    | .exn msg => .denied msg
    | .ok false =>
      if ctx.user = none then .denied "Authentication required"
      else .denied "Permission denied"
    | .ok true => checkRulesLoop rest ownerField ctx

/-- `checkRules(entity, operation, ctx)` from the rules module. -/
def checkRules (entity : Entity) (operation : Operation) (ctx : CheckCtx) : CheckResult :=
  let rules := entity.config.rules.get operation
  let ownerField := jsStrOrD entity.config.ownerField "authorId"
  match rules with
  | none => .allowed
  | some rs =>
    if rs.isEmpty then .allowed
    else checkRulesLoop rs ownerField (fullCtx entity operation ctx)

/-! ## Error normalization (`error.ts`) -/

/-- `ErrorCode` from `types.ts`. -/
inductive ErrorCode where
  | VALIDATION_ERROR
  | UNAUTHORIZED
  | FORBIDDEN
  | NOT_FOUND
  | CONFLICT
  | INTERNAL_ERROR
deriving DecidableEq, Repr

/-- `{field, message}` pair of a structured validation error. -/
structure ValidationError where
  field : String
  message : String
deriving DecidableEq, Repr

/-- `errorCodeToStatus`: the 1:1 code-to-HTTP-status mapping. -/
def errorCodeToStatus (code : ErrorCode) : Nat :=
  match code with
  | .VALIDATION_ERROR => 400
  | .UNAUTHORIZED => 401
  | .FORBIDDEN => 403
  | .NOT_FOUND => 404
  | .CONFLICT => 409
  | .INTERNAL_ERROR => 500

/-- The stable wire error shape `{code, message, details?}`. -/
structure ZapiError where
  code : ErrorCode
  message : String
  details : Option (List ValidationError) := none
deriving DecidableEq, Repr

/-- Body of a response produced by the error layer.  Success bodies are
outside the scope of the checked properties. -/
inductive ResponseBody where
  | err (e : ZapiError)
  | data
deriving DecidableEq, Repr

/-- `ZapiResponse` (headers are set by middleware and are not touched by
the error layer, so they are not modelled). -/
structure ZapiResponse where
  status : Nat
  body : ResponseBody
deriving DecidableEq, Repr

/-- `createErrorResponse`: attaches `details` only when non-empty. -/
def createErrorResponse (code : ErrorCode) (message : String)
    (details : Option (List ValidationError) := none) : ZapiResponse :=
  let err : ZapiError :=
    { code := code
      message := message
      details :=
        match details with
        | some l => if l.length > 0 then some l else none
        | none => none }
  { status := errorCodeToStatus code, body := .err err }

/-- `validationError(errors)`: 400 response. -/
def validationError (errors : List ValidationError) : ZapiResponse :=
  createErrorResponse .VALIDATION_ERROR "Validation failed" (some errors)

/-- `unauthorizedError(message?)`: 401 response, default message
"Authentication required". -/
def unauthorizedError (message : Option String := none) : ZapiResponse :=
  createErrorResponse .UNAUTHORIZED (message.getD "Authentication required")

/-- `forbiddenError(message?)`: 403 response, default message
"Permission denied". -/
def forbiddenError (message : Option String := none) : ZapiResponse :=
  createErrorResponse .FORBIDDEN (message.getD "Permission denied")

/-- `notFoundError(message?)`: 404 response. -/
def notFoundError (message : Option String := none) : ZapiResponse :=
  createErrorResponse .NOT_FOUND (message.getD "Not found")

/-- `conflictError(message?)`: 409 response. -/
def conflictError (message : Option String := none) : ZapiResponse :=
  createErrorResponse .CONFLICT (message.getD "Resource already exists")

/-- `internalError(message?)`: 500 response. -/
def internalError (message : Option String := none) : ZapiResponse :=
  createErrorResponse .INTERNAL_ERROR (message.getD "Internal server error")

/-- A thrown value as `handleError` discriminates them: a `NevrError`
instance; an `Error` instance carrying a string `code` property (the
driver-layer / Prisma shape); a plain `Error`; anything else. -/
inductive ThrownError where
  | nevr (code : ErrorCode) (message : String) (details : Option (List ValidationError))
  | errWithCode (code : String) (message : String)
  | plainError (message : String)
  | nonError
deriving Repr

/-- `handleError(error)`: the single error-normalization step at the
pipeline boundary.  `isProd` models `process.env.NODE_ENV === "production"`. -/
def handleError (isProd : Bool) (error : ThrownError) : ZapiResponse :=
  match error with
  | .nevr code message details => createErrorResponse code message details
  | .errWithCode code message =>
    if code = "P2002" then conflictError (some "Resource already exists")
    else if code = "P2025" then notFoundError
    else if code = "P2003" then
      validationError [{ field := "relation", message := "Related resource not found" }]
    else internalError (some (if isProd then "Internal server error" else message))
  | .plainError message =>
    internalError (some (if isProd then "Internal server error" else message))
  | .nonError => internalError (some "Unknown error")

/-! ## Input validation (validation module) -/

/-- The character class `[^\s@]` of the email regular expression. -/
def emailChar (c : Char) : Bool :=
  !c.isWhitespace && c != '@'

/-- `isValidEmail`: the source tests `/^[^\s@]+@[^\s@]+\.[^\s@]+$/`,
i.e. the string is `local@domain` with exactly one `@`, both parts
non-empty and free of whitespace and `@`, and the domain containing a
dot that is neither its first nor its last character. -/
def isValidEmail (s : String) : Bool :=
  match s.splitOn "@" with
  | [loc, dom] =>
    let lc := loc.toList
    let dc := dom.toList
    !lc.isEmpty && lc.all emailChar && !dc.isEmpty && dc.all emailChar
      && ((dc.drop 1).dropLast.contains '.')
  | _ => false

/-- String rendering of a numeric bound used inside validation messages
(the source interpolates a JS number; integral values render as JS
does, non-integral values as a fraction, which no checked property
depends on). -/
def ratStr (q : Rat) : String :=
  if q.den = 1 then toString q.num else toString q.num ++ "/" ++ toString q.den

/-- `validateField(fieldName, value, field, operation)`.  `dateParses`
models the external `new Date(string)` parser (`true` iff the parsed
date is valid). -/
def validateField (dateParses : String → Bool) (fieldName : String) (value : JsValue)
    (field : FieldDef) (operation : Operation) : List ValidationError :=
  match value with
  | .vUndef =>
    if !field.optional && jsUndef field.default && operation = Operation.create then
      [{ field := fieldName, message := "Required" }]
    else []
  | .vNull =>
    if !field.optional then [{ field := fieldName, message := "Cannot be null" }]
    else []
  | v =>
    match field.type with
    | .string | .text =>
      match v with
      | .vStr s =>
        (if field.isEmail && !isValidEmail s then
          [{ field := fieldName, message := "Invalid email format" }]
        else []) ++
        (match field.min with
          | some m =>
            if (s.length : Rat) < m then
              [{ field := fieldName, message := "Must be at least " ++ ratStr m ++ " characters" }]
            else []
          | none => []) ++
        (match field.max with
          | some m =>
            if (s.length : Rat) > m then
              [{ field := fieldName, message := "Must be at most " ++ ratStr m ++ " characters" }]
            else []
          | none => [])
      | _ => [{ field := fieldName, message := "Must be a string" }]
    | .int =>
      match v with
      | .vNum q =>
        if q.den ≠ 1 then [{ field := fieldName, message := "Must be an integer" }]
        else
          (match field.min with
            | some m =>
              if q < m then [{ field := fieldName, message := "Must be at least " ++ ratStr m }]
              else []
            | none => []) ++
          (match field.max with
            | some m =>
              if q > m then [{ field := fieldName, message := "Must be at most " ++ ratStr m }]
              else []
            | none => [])
      | _ => [{ field := fieldName, message := "Must be an integer" }]
    | .float =>
      match v with
      | .vNum q =>
        (match field.min with
          | some m =>
            if q < m then [{ field := fieldName, message := "Must be at least " ++ ratStr m }]
            else []
          | none => []) ++
        (match field.max with
          | some m =>
            if q > m then [{ field := fieldName, message := "Must be at most " ++ ratStr m }]
            else []
          | none => [])
      | _ => [{ field := fieldName, message := "Must be a number" }]
    | .boolean =>
      match v with
      | .vBool _ => []
      | _ => [{ field := fieldName, message := "Must be a boolean" }]
    | .datetime =>
      match v with
      | .vDate _ => []
      | .vStr s =>
        if !dateParses s then [{ field := fieldName, message := "Invalid date format" }]
        else []
      | _ => [{ field := fieldName, message := "Must be a date" }]
    | .json => []

/-- `validateInput`'s allowed-field computation: every field name except
`hasMany` relations, plus every `belongsTo` foreign-key name. -/
def allowedInputFields (fields : List (String × FieldDef)) : List String :=
  let base := fields.foldl
    (fun acc nf =>
      match nf.2.relation with
      | some rel => if rel.type = .hasMany then acc else acc ++ [nf.1]
      | none => acc ++ [nf.1]) []
  let fks := fields.foldl
    (fun acc nf =>
      match nf.2.relation with
      | some rel => if rel.type = .hasMany then acc else acc ++ [rel.foreignKey]
      | none => acc) []
  base ++ fks

/-- The field definition `validateInput` validates an input key against:
the declared field, or a synthetic string field when the key is some
relation's foreign key (`{ type: "string", optional: f.optional, unique: false }`). -/
def fieldForInputKey (fields : List (String × FieldDef)) (key : String) : Option FieldDef :=
  match jsGet fields key with
  | some f => some f
  | none =>
    (fields.find? (fun nf =>
      match nf.2.relation with
      | some rel => rel.foreignKey == key
      | none => false)).map
      (fun nf => { type := .string, optional := nf.2.optional, unique := false })

/-- The `for create, check required fields` loop of `validateInput`:
skips `hasMany` relations and the auto-set owner foreign key; a
non-optional field without default that is absent from the input yields
a "Required" error tagged with the field name, or with the foreign-key
name for relation fields. -/
def requiredFieldErrors (config : EntityConfig) (input : List (String × JsValue)) : List ValidationError :=
  config.fields.filterMap
    (fun nf =>
      let (name, field) := nf
      match field.relation with
      | some rel =>
        if rel.type = .hasMany then none
        else if strTruthy config.ownerField && some rel.foreignKey == config.ownerField then none
        else if !field.optional && jsUndef field.default && !(input.any (fun kv => kv.1 == rel.foreignKey)) then
          some { field := rel.foreignKey, message := "Required" }
        else none
      | none =>
        if !field.optional && jsUndef field.default && !(input.any (fun kv => kv.1 == name)) then
          some { field := name, message := "Required" }
        else none)

/-- `{valid, errors[], data}`. -/
structure ValidationResult where
  valid : Bool
  errors : List ValidationError
  data : List (String × JsValue)
deriving DecidableEq, Repr

/-- `validateInput(entity, input, operation)` from the validation
module. -/
def validateInput (dateParses : String → Bool) (entity : Entity)
    (input : List (String × JsValue)) (operation : Operation) : ValidationResult :=
  let allowed := allowedInputFields entity.config.fields
  let step := fun (acc : List ValidationError × List (String × JsValue)) (kv : String × JsValue) =>
    let (errors, data) := acc
    if !allowed.contains kv.1 then acc
    else
      match fieldForInputKey entity.config.fields kv.1 with
      | none => acc
      | some field =>
        let fieldErrors := validateField dateParses kv.1 kv.2 field operation
        (errors ++ fieldErrors,
         if fieldErrors.isEmpty && kv.2 ≠ .vUndef then jsSet data kv.1 kv.2 else data)
  let (entryErrors, data) := input.foldl step ([], [])
  let errors :=
    if operation = Operation.create then entryErrors ++ requiredFieldErrors entity.config input
    else entryErrors
  { valid := errors.isEmpty, errors := errors, data := data }

/-! ## Entity builder (entity DSL module) -/

/-- The mutable state of `EntityBuilder` (name validation happens in the
constructor and is not at issue in the checked properties). -/
structure EntityBuilder where
  name : String
  fields : List (String × FieldDef)
  rules : RulesMap := {}
  ownerField : Option String := none
  timestamps : Bool := true

/-- JavaScript object spread `{ ...defaults, ...overlay }` on the
partial rules record: a key present in the overlay wins. -/
def spreadRules (defaults overlay : RulesMap) : RulesMap :=
  { create := overlay.create <|> defaults.create
    read := overlay.read <|> defaults.read
    update := overlay.update <|> defaults.update
    delete := overlay.delete <|> defaults.delete
    list := overlay.list <|> defaults.list }

/-- The default rule set `ownedBy` installs. -/
def ownedByDefaults : RulesMap :=
  { create := some [.name "authenticated"]
    read := some [.name "everyone"]
    update := some [.name "owner"]
    delete := some [.name "owner"]
    list := some [.name "everyone"] }

/-- `EntityBuilder.ownedBy(relationField)`: throws unless the named
field exists and carries a relation (`!field?.relation`); on success
sets the owner field to the relation's foreign key and installs the
default owned-resource rules underneath any caller-set rules. -/
def EntityBuilder.ownedBy (b : EntityBuilder) (relationField : String) : Except String EntityBuilder :=
  let errMsg := "Field \"" ++ relationField ++
    "\" is not a relation. ownedBy requires a belongsTo relation."
  match jsGet b.fields relationField with
  | none => .error errMsg
  | some field =>
    match field.relation with
    | none => .error errMsg
    | some rel =>
      .ok { b with
        ownerField := some rel.foreignKey
        rules := spreadRules ownedByDefaults b.rules }

/-- `EntityBuilder.build()`. -/
def EntityBuilder.build (b : EntityBuilder) : Entity :=
  { name := b.name
    config :=
      { fields := b.fields
        rules := b.rules
        ownerField := b.ownerField
        timestamps := b.timestamps } }

/-- The response the request pipeline builds when `checkRules` denies an
operation.  All five CRUD branches of `handleEntityRequest` contain the
same expression
`req.user ? forbiddenError(ruleResult.error) : unauthorizedError(ruleResult.error)`;
this definition is that shared expression. -/
def ruleDenialResponse (user : Option User) (error : Option String) : ZapiResponse :=
  match user with
  | some _ => forbiddenError error
  | none => unauthorizedError error

/-! ## Plugin extension resolver (`plugins/core/resolver.ts`)

JavaScript objects are aliased references; `applyExtension` clones each
entity object and its field map but not the field-definition objects
inside the map.  To make that aliasing observable, field definitions
live in an explicit heap (`FieldStore`), and entity definitions hold
heap addresses.  `Object.assign(field, override)` becomes a store
update at the shared address. -/

/-- A `references` clause of a plugin field (`{entity, field?}`). -/
structure RefSpec where
  entity : String
  field : Option String := none
deriving DecidableEq, Repr

/-- `PluginFieldDef` from the plugin contract (the optional boolean
properties keep their presence, since `Object.assign` overrides only
present keys; `description` carries no behavior and is dropped). -/
structure PluginFieldDef where
  type : FieldType
  required : Option Bool := none
  unique : Option Bool := none
  default : Option JsValue := none
  locked : Option Bool := none
  references : Option RefSpec := none
deriving DecidableEq, Repr

/-- The heap of plugin field-definition objects; an address is an index. -/
def FieldStore : Type := List PluginFieldDef

/-- Heap read. -/
def storeGet (store : FieldStore) (addr : Nat) : Option PluginFieldDef :=
  List.get? store addr

/-- Heap write (out-of-range writes are impossible in real runs and are
a no-op here). -/
def storeSet (store : FieldStore) (addr : Nat) (fd : PluginFieldDef) : FieldStore :=
  List.set store addr fd

/-- `Partial<PluginFieldDef>`: the `override` payload; `some` marks a
present key. -/
structure FieldPatch where
  type : Option FieldType := none
  required : Option Bool := none
  unique : Option Bool := none
  default : Option JsValue := none
  locked : Option Bool := none
  references : Option RefSpec := none
deriving DecidableEq, Repr

/-- `Object.assign(field, override)`: present keys of the patch replace
the target's slots in place. -/
def assignPatch (fd : PluginFieldDef) (p : FieldPatch) : PluginFieldDef :=
  { type := p.type.getD fd.type
    required := p.required <|> fd.required
    unique := p.unique <|> fd.unique
    default := p.default <|> fd.default
    locked := p.locked <|> fd.locked
    references := p.references <|> fd.references }

/-- `PluginEntityDef`: field map of heap addresses plus the entity-level
flags (`description` dropped). -/
structure PluginEntityDef where
  fields : List (String × Nat)
  required : Bool := false
  internal : Bool := false
  routePath : Option String := none
deriving DecidableEq, Repr

/-- `PluginSchema` (the `extend` map also holds field addresses). -/
structure PluginSchema where
  entities : List (String × PluginEntityDef) := []
  extend : List (String × List (String × Nat)) := []
deriving DecidableEq, Repr

/-- `PluginExtensionFieldDef`: one per-field instruction. -/
structure PluginExtensionFieldDef where
  add : Option Nat := none
  rename : Option String := none
  override : Option FieldPatch := none
  remove : Bool := false
deriving DecidableEq, Repr

/-- `PluginExtensionEntityDef`: one per-entity instruction block. -/
structure PluginExtensionEntityDef where
  fields : List (String × PluginExtensionFieldDef) := []
  addFields : List (String × Nat) := []
  remove : Bool := false
  rename : Option String := none
  routePath : Option String := none
  internal : Option Bool := none
deriving DecidableEq, Repr

/-- A `basePath` setting: a string or the literal `false`. -/
inductive BasePathSpec where
  | path (s : String)
  | off
deriving DecidableEq, Repr

/-- `PluginExtension` (route/middleware overrides carry no entity
behavior and are outside the checked properties). -/
structure PluginExtension where
  entities : List (String × PluginExtensionEntityDef) := []
  addEntities : List (String × PluginEntityDef) := []
  basePath : Option BasePathSpec := none
deriving DecidableEq, Repr

/-- The rename-tracking record of `applyExtension`. -/
structure EntityRenameInfo where
  originalName : String
  newName : String
  routePath : Option String := none
  internal : Option Bool := none
deriving DecidableEq, Repr

/-- `field.locked` truthiness read through the heap. -/
def lockedAt (store : FieldStore) (addr : Nat) : Bool :=
  match storeGet store addr with
  | some fd => fd.locked.getD false
  | none => false

/-- The `entityExt.fields` inner loop body: add wins outright; missing
fields are warned and skipped; remove respects `locked`; rename moves
the address; override mutates the shared field object in the heap. -/
def applyFieldExt (store : FieldStore) (entity : PluginEntityDef)
    (fieldName : String) (fieldExt : PluginExtensionFieldDef) :
    FieldStore × PluginEntityDef :=
  match fieldExt.add with
  | some addr => (store, { entity with fields := jsSet entity.fields fieldName addr })
  | none =>
    match jsGet entity.fields fieldName with
    | none => (store, entity)
    | some addr =>
      if fieldExt.remove then
        if lockedAt store addr then (store, entity)
        else (store, { entity with fields := jsDel entity.fields fieldName })
      else
        let entity1 :=
          match fieldExt.rename with
          | some newName =>
            if newName ≠ "" then
              { entity with fields := jsDel (jsSet entity.fields newName addr) fieldName }
            else entity
          | none => entity
        let store1 :=
          match fieldExt.override with
          | some patch =>
            match storeGet store addr with
            | some fd => storeSet store addr (assignPatch fd patch)
            | none => store
          | none => store
        (store1, entity1)

/-- State threaded through `applyExtension`: the heap, the (copied)
entity map under construction, and the rename map. -/
structure ApplyState where
  store : FieldStore
  entities : List (String × PluginEntityDef)
  renames : List (String × EntityRenameInfo)

/-- One iteration of the `extension.entities` loop of `applyExtension`. -/
def applyEntityExt (st : ApplyState) (instr : String × PluginExtensionEntityDef) : ApplyState :=
  let (entityName, entityExt) := instr
  match jsGet st.entities entityName with
  | none => st
  | some entity =>
    if entityExt.remove && !entity.required then
      { st with entities := jsDel st.entities entityName }
    else
      let (entities1, renames1) :=
        match entityExt.rename with
        | some newName =>
          if newName ≠ "" then
            (jsDel (jsSet st.entities newName entity) entityName,
             jsSet st.renames newName
               { originalName := entityName, newName := newName,
                 routePath := entityExt.routePath, internal := entityExt.internal })
          else track st.entities st.renames entityName entityExt
        | none => track st.entities st.renames entityName entityExt
      let targetName := jsStrOrD entityExt.rename entityName
      match jsGet entities1 targetName with
      | none => { store := st.store, entities := entities1, renames := renames1 }
      | some target =>
        let target1 :=
          match entityExt.internal with
          | some b => { target with internal := b }
          | none => target
        let target2 :=
          if strTruthy entityExt.routePath then { target1 with routePath := entityExt.routePath }
          else target1
        let target3 :=
          entityExt.addFields.foldl
            (fun te nf => { te with fields := jsSet te.fields nf.1 nf.2 }) target2
        let (store4, target4) :=
          entityExt.fields.foldl
            (fun acc nf => applyFieldExt acc.1 acc.2 nf.1 nf.2) (st.store, target3)
        { store := store4, entities := jsSet entities1 targetName target4, renames := renames1 }
where
  /-- The `else if (entityExt.routePath || entityExt.internal !== undefined)`
  tracking branch taken when no rename occurs. -/
  track (entities : List (String × PluginEntityDef)) (renames : List (String × EntityRenameInfo))
      (entityName : String) (entityExt : PluginExtensionEntityDef) :
      List (String × PluginEntityDef) × List (String × EntityRenameInfo) :=
    if strTruthy entityExt.routePath || entityExt.internal.isSome then
      (entities,
       jsSet renames entityName
         { originalName := entityName, newName := entityName,
           routePath := entityExt.routePath, internal := entityExt.internal })
    else (entities, renames)

/-- The entity-map copy at the top of `applyExtension`
(`result.entities[name] = { ...def, fields: { ...def.fields } }`): the
entity object and the field map are cloned, but the field-definition
objects (heap addresses) are shared with the original schema. -/
def copyEntities (l : List (String × PluginEntityDef)) : List (String × PluginEntityDef) :=
  l.foldl (fun acc nd => jsSet acc nd.1 nd.2) []

/-- `applyExtension(schema, extension, pluginId)`. -/
def applyExtension (store : FieldStore) (schema : PluginSchema) (extension : PluginExtension)
    (pluginId : String) : FieldStore × PluginSchema × List (String × EntityRenameInfo) :=
  let st0 : ApplyState :=
    { store := store, entities := copyEntities schema.entities, renames := [] }
  let st1 := extension.entities.foldl applyEntityExt st0
  let st2 :=
    extension.addEntities.foldl
      (fun st nd =>
        let namespaced := pluginId ++ "_" ++ nd.1
        { st with
          entities := jsSet st.entities namespaced nd.2
          renames := jsSet st.renames namespaced
            { originalName := nd.1, newName := namespaced,
              routePath := nd.2.routePath, internal := some nd.2.internal } })
      st1
  (st2.store, { entities := st2.entities, extend := schema.extend }, st2.renames)

/-- `toZapiField`: converts a plugin field to an engine field; a
`references` clause becomes a `belongsTo` relation whose target thunk
is determined by the referenced entity name. -/
def toZapiField (fd : PluginFieldDef) : FieldDef :=
  { type := fd.type
    optional := !(fd.required.getD false)
    unique := fd.unique.getD false
    default := fd.default
    relation := fd.references.map (fun r =>
      { type := .belongsTo
        entityName := r.entity
        foreignKey := r.entity ++ "Id"
        references := jsStrOrD r.field "id" }) }

/-- `toZapiEntity(name, def)`: internal entities get empty rule lists
for every operation (no public CRUD routes); otherwise the rule slots
stay undefined. -/
def toZapiEntity (store : FieldStore) (name : String) (def_ : PluginEntityDef) : Entity :=
  let internalRules : Option (List RuleDef) := if def_.internal then some [] else none
  { name := name
    config :=
      { fields := def_.fields.map (fun nf =>
          (nf.1, toZapiField ((storeGet store nf.2).getD { type := .string })))
        rules :=
          { create := internalRules
            read := internalRules
            update := internalRules
            delete := internalRules
            list := internalRules }
        timestamps := true }
    plugin := none }

/-- Plugin metadata as the resolver consumes it. -/
structure PluginMeta where
  id : String
  basePath : Option BasePathSpec := none
deriving DecidableEq, Repr

/-- `computeBasePath(meta, extension)`: the extension's `basePath` wins
over the meta's; `false` means no prefix; a missing leading slash is
prepended; the default is `"/" + id`. -/
def computeBasePath (meta : PluginMeta) (extension : Option PluginExtension) : String :=
  match extension.bind (fun e => e.basePath) with
  | some .off => ""
  | some (.path s) => if s.startsWith "/" then s else "/" ++ s
  | none =>
    match meta.basePath with
    | some .off => ""
    | some (.path s) => if s.startsWith "/" then s else "/" ++ s
    | none => "/" ++ meta.id

/-- The entity-production path of `resolvePlugin`: applies the extension
when one is provided, converts every resulting entity definition with
`toZapiEntity`, and attaches the plugin metadata stub in place
(`entity.plugin = {id, basePath, routePath, internal}`).  Returns the
final heap together with the entity list.  (Route, middleware and
`entityMeta` production carry no entity state and are outside the
checked properties.) -/
def resolvePluginEntities (meta : PluginMeta) (schema : Option PluginSchema)
    (extension : Option PluginExtension) (store : FieldStore) :
    FieldStore × List Entity :=
  let basePath := computeBasePath meta extension
  let resolvedSchema := schema.getD {}
  let (store1, schema1, renames) :=
    match extension with
    | none => (store, resolvedSchema, [])
    | some ext => applyExtension store resolvedSchema ext meta.id
  let entities := schema1.entities.map (fun nd =>
    let renameInfo := jsGet renames nd.1
    let isInternal := (renameInfo.bind (fun r => r.internal)).getD nd.2.internal
    let entityRoutePath := jsStrOr (renameInfo.bind (fun r => r.routePath)) nd.2.routePath
    { toZapiEntity store1 nd.1 nd.2 with
      plugin := some
        { id := meta.id
          basePath := if basePath = "" then none else some basePath
          routePath := entityRoutePath
          internal := isInternal } })
  (store1, entities)

/-- The no-op extension `{}`. -/
def emptyExtension : PluginExtension := {}

/-- Read the field definition that the *original* (pre-resolution)
schema declaration reaches for entity `en`, field `fn`, through a given
heap: this is what the plugin's static declaration observes. -/
def readDeclaredField (store : FieldStore) (schema : PluginSchema)
    (en fn : String) : Option PluginFieldDef :=
  (jsGet schema.entities en).bind (fun d => (jsGet d.fields fn).bind (storeGet store))

/-! ## Plugin registry initializer (`plugins/core/registry.ts`)

`initializeAllPlugins` topologically sorts the registered plugin
instances by `meta.dependencies` (depth-first, with a `visiting` set for
cycle detection), then awaits `onRegister` and `onInit` for each plugin
in sorted order.  Lifecycle hook bodies are external code; the model
records which hooks run and in which order as a trace of events.  The
unbounded JS recursion is modelled with explicit fuel; the fuel
`plugins.length + 1` is proven sufficient below whenever the registry
has unique ids (which registration enforces). -/

/-- A registered plugin instance as the initializer consumes it:
`meta.id`, `meta.dependencies`, and which lifecycle hooks are defined. -/
structure ZapiPlugin where
  id : String
  deps : List String := []
  hasOnRegister : Bool := true
  hasOnInit : Bool := true
deriving DecidableEq, Repr

/-- The ids of a plugin list. -/
def idsOf (ps : List ZapiPlugin) : List String := ps.map (fun p => p.id)

/-- `pluginMap.get(depId)`: a JS `Map` built from an entry list keeps
the last binding for a duplicated key. -/
def lookupPlugin (ps : List ZapiPlugin) (id : String) : Option ZapiPlugin :=
  ps.reverse.find? (fun p => p.id == id)

/-- State of the depth-first sort: the output list, the `visited` set
and the `visiting` set (sets modelled as lists of ids). -/
structure SortState where
  sorted : List ZapiPlugin := []
  visited : List String := []
  visiting : List String := []
deriving Repr

/-- Failure of the sort: a cycle (error names the revisited plugin id),
a dependency on an unregistered plugin, or fuel exhaustion (a model
artifact, proven unreachable for registries with unique ids). -/
inductive SortError where
  | circular (id : String)
  | missing (id depId : String)
  | outOfFuel
deriving DecidableEq, Repr

/-- The source's error message for each failure. -/
def SortError.message : SortError → String
  | .circular id => "[Zapi] Circular plugin dependency detected: " ++ id
  | .missing id depId => "[Zapi] Plugin \"" ++ id ++ "\" depends on missing plugin \"" ++ depId ++ "\""
  | .outOfFuel => "[Zapi] recursion limit"

/-- The `for (const depId of plugin.meta.dependencies)` loop of
`visit`, parametric in the recursive visit call. -/
def visitDeps (ps : List ZapiPlugin)
    (vis : ZapiPlugin → SortState → Except SortError SortState)
    (pid : String) : List String → SortState → Except SortError SortState
  | [], s => .ok s
  | d :: rest, s =>
    match lookupPlugin ps d with
    | none => .error (.missing pid d)
    | some dep =>
      match vis dep s with
      | .error e => .error e
      | .ok s1 => visitDeps ps vis pid rest s1

/-- The recursive `visit` of `topologicalSort`: an already-visited node
returns immediately; a node in the current DFS stack is a cycle; else
the node is pushed on `visiting`, its dependencies are visited, and it
is moved to `visited`/`sorted`. -/
def visit (ps : List ZapiPlugin) : Nat → ZapiPlugin → SortState → Except SortError SortState
  | 0, _, _ => .error .outOfFuel
  | fuel + 1, p, s =>
    if p.id ∈ s.visited then .ok s
    else if p.id ∈ s.visiting then .error (.circular p.id)
    else
      match visitDeps ps (visit ps fuel) p.id p.deps { s with visiting := p.id :: s.visiting } with
      | .error e => .error e
      | .ok s2 =>
        .ok { sorted := s2.sorted ++ [p]
              visited := p.id :: s2.visited
              visiting := s2.visiting.erase p.id }

/-- The top-level `for (const plugin of plugins) visit(plugin)` loop. -/
def visitAll (vis : ZapiPlugin → SortState → Except SortError SortState) :
    List ZapiPlugin → SortState → Except SortError SortState
  | [], s => .ok s
  | p :: rest, s =>
    match vis p s with
    | .error e => .error e
    | .ok s1 => visitAll vis rest s1

/-- `topologicalSort(plugins)`. -/
def topologicalSort (ps : List ZapiPlugin) : Except SortError (List ZapiPlugin) :=
  match visitAll (visit ps (ps.length + 1)) ps {} with
  | .error e => .error e
  | .ok s => .ok s.sorted

/-- A lifecycle hook invocation. -/
inductive LifecycleEvent where
  | register (id : String)
  | init (id : String)
deriving DecidableEq, Repr

/-- The plugin id an event belongs to. -/
def LifecycleEvent.pid : LifecycleEvent → String
  | .register id => id
  | .init id => id

/-- The hook invocations `initializeAllPlugins` performs for one plugin:
`onRegister` then `onInit`, each awaited, each only when defined. -/
def pluginEvents (p : ZapiPlugin) : List LifecycleEvent :=
  (if p.hasOnRegister then [.register p.id] else []) ++
  (if p.hasOnInit then [.init p.id] else [])

/-- `initializeAllPlugins(zapi)`: sorts, then awaits each sorted
plugin's hooks in order.  A sort failure rejects before any hook runs,
so an error result carries no events at all. -/
def initializeAllPlugins (ps : List ZapiPlugin) : Except SortError (List LifecycleEvent) :=
  match topologicalSort ps with
  | .error e => .error e
  | .ok sorted => .ok (sorted.map pluginEvents).flatten

/-! ## Theorems: authorization rule engine -/

/-- Auxiliary: the outcome characterization of the `checkRules` rule
loop when it denies. -/
theorem checkRulesLoop_denied_cases (rs : List RuleDef) (of : String) (c : RuleContext)
    (msg : String) (h : checkRulesLoop rs of c = .denied msg) :
    (c.user = none ∧ msg = "Authentication required") ∨
    ((∃ u, c.user = some u) ∧ msg = "Permission denied") ∨
    (∃ r ∈ rs, resolveRule r of c = .exn msg) := by
  induction rs with
  | nil => simp [checkRulesLoop] at h
  | cons r rest ih =>
    rw [checkRulesLoop] at h
    cases hr : resolveRule r of c with
    | exn m =>
      rw [hr] at h
      refine Or.inr (Or.inr ⟨r, by simp, ?_⟩)
      cases h
      exact hr
    | ok b =>
      rw [hr] at h
      cases b with
      | false =>
        cases hu : c.user with
        | none =>
          simp only [hu, if_pos rfl] at h
          exact Or.inl ⟨rfl, by cases h; rfl⟩
        | some u =>
          simp only [hu] at h
          exact Or.inr (Or.inl ⟨⟨u, rfl⟩, by cases h; rfl⟩)
      | true =>
        rcases ih h with h1 | h2 | ⟨r', hr', he⟩
        · exact Or.inl h1
        · exact Or.inr (Or.inl h2)
        · exact Or.inr (Or.inr ⟨r', by simp [hr'], he⟩)

/-- C6: for every entity, operation and context, an absent or empty rule
list makes `checkRules` allow the operation (open by default). -/
theorem checkRules_no_rules_allows (e : Entity) (op : Operation) (ctx : CheckCtx)
    (h : e.config.rules.get op = none ∨ e.config.rules.get op = some []) :
    checkRules e op ctx = .allowed := by
  rcases h with h | h <;> simp [checkRules, h]

/-- Witness for `checkRules_no_rules_allows` at a concrete entity with
no declared rules. -/
theorem checkRules_no_rules_allows_witness :
    checkRules { name := "post", config := { fields := [], rules := {} } } .create
      { user := none, input := [], resource := none } = .allowed :=
  checkRules_no_rules_allows _ _ _ (Or.inl rfl)

/-- C5: whenever `checkRules` denies, the uniform pipeline mapping
(`req.user ? forbiddenError : unauthorizedError`, identical in all five
CRUD branches) yields 401 without a user and 403 with one, and the
denial message is exactly "Authentication required" (no user),
"Permission denied" (user present), or the message of an exception
thrown by one of the operation's resolved rules. -/
theorem checkRules_denial_error_and_status (e : Entity) (op : Operation) (ctx : CheckCtx)
    (msg : String) (h : checkRules e op ctx = .denied msg) :
    (ruleDenialResponse ctx.user (some msg)).status = (if ctx.user.isSome then 403 else 401) ∧
    ((ctx.user = none ∧ msg = "Authentication required") ∨
     ((∃ u, ctx.user = some u) ∧ msg = "Permission denied") ∨
     (∃ r ∈ (e.config.rules.get op).getD [],
       resolveRule r (jsStrOrD e.config.ownerField "authorId") (fullCtx e op ctx) = .exn msg)) := by
  constructor
  · cases ctx.user <;> rfl
  · cases hr : e.config.rules.get op with
    | none => simp only [checkRules, hr] at h; cases h
    | some rs =>
      simp only [checkRules, hr] at h
      by_cases he : rs.isEmpty
      · rw [if_pos he] at h; cases h
      · rw [if_neg he] at h
        have := checkRulesLoop_denied_cases rs (jsStrOrD e.config.ownerField "authorId")
          (fullCtx e op ctx) msg h
        simpa [hr, fullCtx] using this

/-- Witness for `checkRules_denial_error_and_status`: a logged-in
non-admin user denied by the `admin` rule. -/
theorem checkRules_denial_error_and_status_witness :
    (ruleDenialResponse (some { id := "u" }) (some "Permission denied")).status =
      (if (some ({ id := "u" } : User)).isSome then 403 else 401) ∧
    (((some ({ id := "u" } : User)) = none ∧ "Permission denied" = "Authentication required") ∨
     ((∃ u, (some ({ id := "u" } : User)) = some u) ∧ "Permission denied" = "Permission denied") ∨
     (∃ r ∈ ((({ name := "post", config := { fields := [], rules := { create := some [.name "admin"] } } } : Entity).config.rules.get .create).getD []),
       resolveRule r (jsStrOrD (none : Option String) "authorId")
         (fullCtx { name := "post", config := { fields := [], rules := { create := some [.name "admin"] } } } .create
           { user := some { id := "u" }, input := [], resource := none }) = .exn "Permission denied")) :=
  checkRules_denial_error_and_status
    { name := "post", config := { fields := [], rules := { create := some [.name "admin"] } } }
    .create { user := some { id := "u" }, input := [], resource := none } "Permission denied" rfl

/-- C10: a rule name that is none of the four built-ins resolves to the
always-true `everyone` rule; inserting it anywhere in a rule list never
changes the outcome of the rule loop, and an operation guarded only by
such a name is always allowed. -/
theorem resolveRule_unknown_name_is_everyone (s : String) (of : String)
    (h1 : s ≠ "everyone") (h2 : s ≠ "authenticated") (h3 : s ≠ "admin") (h4 : s ≠ "owner") :
    resolveRule (.name s) of = everyone ∧
    (∀ ctx pre post, checkRulesLoop (pre ++ RuleDef.name s :: post) of ctx =
      checkRulesLoop (pre ++ post) of ctx) ∧
    (∀ (e : Entity) (op : Operation) (ctx : CheckCtx),
      e.config.rules.get op = some [RuleDef.name s] → checkRules e op ctx = .allowed) := by
  have hres : ∀ of', resolveRule (.name s) of' = everyone := by
    intro of'
    simp [resolveRule, h1, h2, h3, h4]
  refine ⟨hres of, ?_, ?_⟩
  · intro ctx pre post
    induction pre with
    | nil => simp [checkRulesLoop, hres, everyone]
    | cons r rest ih =>
      rw [List.cons_append, checkRulesLoop, List.cons_append, checkRulesLoop]
      cases resolveRule r of ctx with
      | exn m => rfl
      | ok b => cases b <;> simp [ih]
  · intro e op ctx hr
    rw [checkRules, hr]
    simp [checkRulesLoop, hres, everyone]

/-- Witness for `resolveRule_unknown_name_is_everyone` at the misspelled
name "evryone". -/
theorem resolveRule_unknown_name_is_everyone_witness :
    resolveRule (.name "evryone") "authorId" = everyone ∧
    (∀ ctx pre post, checkRulesLoop (pre ++ RuleDef.name "evryone" :: post) "authorId" ctx =
      checkRulesLoop (pre ++ post) "authorId" ctx) ∧
    (∀ (e : Entity) (op : Operation) (ctx : CheckCtx),
      e.config.rules.get op = some [RuleDef.name "evryone"] → checkRules e op ctx = .allowed) :=
  resolveRule_unknown_name_is_everyone "evryone" "authorId"
    (by decide) (by decide) (by decide) (by decide)

/-! ## Theorems: error normalization -/

/-- C8: the Prisma error codes map 1:1 to the stable wire shape:
`P2002` (unique violation) to 409 CONFLICT, `P2025` (missing record on
write) to 404 NOT_FOUND, `P2003` (foreign-key violation) to 400
VALIDATION_ERROR with the synthetic `"relation"` detail field — in both
production and development modes. -/
theorem handleError_prisma_code_mapping (isProd : Bool) (msg : String) :
    handleError isProd (.errWithCode "P2002" msg) =
      { status := 409, body := .err { code := .CONFLICT, message := "Resource already exists" } } ∧
    handleError isProd (.errWithCode "P2025" msg) =
      { status := 404, body := .err { code := .NOT_FOUND, message := "Not found" } } ∧
    handleError isProd (.errWithCode "P2003" msg) =
      { status := 400, body := .err
          { code := .VALIDATION_ERROR
            message := "Validation failed"
            details := some [{ field := "relation", message := "Related resource not found" }] } } :=
  ⟨rfl, rfl, rfl⟩

/-! ## Theorems: input validation -/

/-- Auxiliary: a `filterMap` whose underlying filter keeps exactly one
element produces exactly that element's image. -/
theorem filterMap_singleton_of_filter {α β : Type} (p : α → Bool) (f : α → Option β)
    (l : List α) (a : α) (b : β)
    (hnone : ∀ x, p x = false → f x = none) (ha : f a = some b)
    (hl : l.filter p = [a]) : l.filterMap f = [b] := by
  induction l with
  | nil => simp at hl
  | cons x xs ih =>
    by_cases hp : p x
    · rw [List.filter_cons_of_pos hp] at hl
      obtain ⟨hxa, hrest⟩ := List.cons_eq_cons.mp hl
      subst hxa
      rw [List.filterMap_cons, ha]
      have hnil : ∀ y ∈ xs, f y = none := by
        intro y hy
        apply hnone
        have := List.filter_eq_nil_iff.mp hrest y hy
        simpa using this
      rw [List.filterMap_eq_nil_iff.mpr hnil]
    · rw [List.filter_cons_of_neg hp] at hl
      rw [List.filterMap_cons, hnone x (by simpa using hp)]
      exact ih hl

/-- Auxiliary: the required-field pass of `validateInput` on empty input
for an entity with exactly one non-optional default-free field that is
neither a `hasMany` relation nor the auto-set owner foreign key. -/
theorem requiredFieldErrors_singleton (config : EntityConfig) (n : String) (fd : FieldDef)
    (hone : config.fields.filter (fun nf => !nf.2.optional && jsUndef nf.2.default) = [(n, fd)])
    (hmany : ∀ rel, fd.relation = some rel → rel.type ≠ RelationType.hasMany)
    (howner : ∀ rel, fd.relation = some rel →
      ¬(strTruthy config.ownerField = true ∧ rel.foreignKey ∈ config.ownerField)) :
    requiredFieldErrors config [] =
      [{ field := (match fd.relation with | some rel => rel.foreignKey | none => n),
         message := "Required" }] := by
  have hmem : (n, fd) ∈ config.fields.filter (fun nf => !nf.2.optional && jsUndef nf.2.default) := by
    rw [hone]; exact List.mem_singleton_self _
  have hp : (!fd.optional && jsUndef fd.default) = true := (List.mem_filter.mp hmem).2
  apply filterMap_singleton_of_filter (fun nf => !nf.2.optional && jsUndef nf.2.default) _
    config.fields (n, fd) _ _ _ hone
  · intro x hx
    rcases hrel : x.2.relation with _ | rel <;> simp [hrel, hx]
  · rcases hrel : fd.relation with _ | rel
    · simp [hrel, hp]
    · have hm := hmany rel hrel
      have ho : (strTruthy config.ownerField && (some rel.foreignKey == config.ownerField)) = false := by
        cases hst : strTruthy config.ownerField with
        | false => rfl
        | true =>
          cases hbe : (some rel.foreignKey == config.ownerField) with
          | false => rfl
          | true =>
            exact absurd ⟨hst, Option.mem_def.mpr (beq_iff_eq.mp hbe).symm⟩ (howner rel hrel)
      simp [hrel, hp, hm, ho]

/-- C7 (amended): on create with empty input, an entity whose single
non-optional default-free field is neither a `hasMany` relation nor the
auto-set owner foreign key yields invalid with exactly one "Required"
error tagged with the field name — or with the relation's foreign-key
name when the field is a relation. -/
theorem validateInput_single_required_field_error (dp : String → Bool) (e : Entity)
    (n : String) (fd : FieldDef)
    (hone : e.config.fields.filter (fun nf => !nf.2.optional && jsUndef nf.2.default) = [(n, fd)])
    (hmany : ∀ rel, fd.relation = some rel → rel.type ≠ RelationType.hasMany)
    (howner : ∀ rel, fd.relation = some rel →
      ¬(strTruthy e.config.ownerField = true ∧ rel.foreignKey ∈ e.config.ownerField)) :
    validateInput dp e [] .create =
      { valid := false
        errors := [{ field := (match fd.relation with | some rel => rel.foreignKey | none => n),
                     message := "Required" }]
        data := [] } := by
  have hreq := requiredFieldErrors_singleton e.config n fd hone hmany howner
  simp [validateInput, hreq]

/-- Entity with a single required `belongsTo` relation that is also the
owner relation: the auto-set owner foreign key. -/
def ownedPostEntity : Entity :=
  { name := "post"
    config :=
      { fields := [("author",
          { type := .string, optional := false, unique := false
            relation := some
              { type := .belongsTo, entityName := "user"
                foreignKey := "authorId", references := "id" } })]
        rules := {}
        ownerField := some "authorId" } }

/-- C7 (counterexample to the claim as stated): `ownedPostEntity` has
exactly one non-optional field without default, yet
`validateInput(entity, {}, "create")` returns `valid: true` with no
errors, because the required-field pass skips the owner foreign key
(it is auto-set from the authenticated user after validation). -/
theorem validateInput_single_required_owner_field_passes :
    (ownedPostEntity.config.fields.filter
        (fun nf => !nf.2.optional && jsUndef nf.2.default)).map Prod.fst = ["author"] ∧
    validateInput (fun _ => false) ownedPostEntity [] .create =
      { valid := true, errors := [], data := [] } := by
  constructor <;> rfl

/-- Plain entity with one required scalar field. -/
def titledPostEntity : Entity :=
  { name := "post"
    config :=
      { fields := [("title", { type := .string, optional := false, unique := false })]
        rules := {} } }

/-- Witness for `validateInput_single_required_field_error` at
`titledPostEntity`. -/
theorem validateInput_single_required_field_error_witness :
    validateInput (fun _ => false) titledPostEntity [] .create =
      { valid := false, errors := [{ field := "title", message := "Required" }], data := [] } :=
  validateInput_single_required_field_error (fun _ => false) titledPostEntity "title"
    { type := .string, optional := false, unique := false }
    rfl (fun _ h => by cases h) (fun _ h => by cases h)

/-! ## Theorems: entity builder -/

/-- C9 (amended): `ownedBy` fails with the construction error exactly
when the named field does not exist or carries no relation; for every
relation field — `belongsTo`, `hasMany` or `hasOne` alike — it succeeds
and sets the entity's owner field to the relation's foreign key,
installing the default owned-resource rules underneath caller rules. -/
theorem ownedBy_relation_check (b : EntityBuilder) (f : String) :
    ((jsGet b.fields f).bind (fun fd => fd.relation) = none →
      b.ownedBy f = .error ("Field \"" ++ f ++
        "\" is not a relation. ownedBy requires a belongsTo relation.")) ∧
    (∀ fd rel, jsGet b.fields f = some fd → fd.relation = some rel →
      b.ownedBy f = .ok { b with
        ownerField := some rel.foreignKey
        rules := spreadRules ownedByDefaults b.rules }) := by
  constructor
  · intro h
    cases hg : jsGet b.fields f with
    | none => simp [EntityBuilder.ownedBy, hg]
    | some fd =>
      rw [hg] at h
      simp only [Option.some_bind] at h
      simp [EntityBuilder.ownedBy, hg, h]
  · intro fd rel hg hrel
    simp [EntityBuilder.ownedBy, hg, hrel]

/-- Builder with a single `hasMany` relation field. -/
def userWithPostsBuilder : EntityBuilder :=
  { name := "user"
    fields := [("posts",
      { type := .string, optional := true, unique := false
        relation := some
          { type := .hasMany, entityName := "post"
            foreignKey := "postsId", references := "id" } })] }

/-- C9 (counterexample to the claim as stated): `ownedBy` on a
`hasMany` relation field does **not** fail — it succeeds and sets the
owner field to the `hasMany` relation's foreign key, because the guard
only checks `!field?.relation`, not the relation type. -/
theorem ownedBy_hasMany_succeeds :
    ((jsGet userWithPostsBuilder.fields "posts").bind (fun fd => fd.relation.map (fun r => r.type)))
      = some .hasMany ∧
    userWithPostsBuilder.ownedBy "posts" =
      .ok { userWithPostsBuilder with
        ownerField := some "postsId"
        rules := ownedByDefaults } := by
  constructor <;> rfl

/-- Builder with a `belongsTo` relation field. -/
def authoredPostBuilder : EntityBuilder :=
  { name := "post"
    fields := [("author",
      { type := .string, optional := false, unique := false
        relation := some
          { type := .belongsTo, entityName := "user"
            foreignKey := "authorId", references := "id" } })] }

/-- Witness for `ownedBy_relation_check` at a `belongsTo` field. -/
theorem ownedBy_relation_check_witness :
    authoredPostBuilder.ownedBy "author" =
      .ok { authoredPostBuilder with
        ownerField := some "authorId"
        rules := spreadRules ownedByDefaults authoredPostBuilder.rules } :=
  (ownedBy_relation_check authoredPostBuilder "author").2 _
    { type := .belongsTo, entityName := "user", foreignKey := "authorId", references := "id" }
    rfl rfl

/-! ## Theorems: plugin extension resolver -/

/-- The heap, schema and extension of the mutation scenario: one entity
`user` with one field `email` (required string) stored at address 0,
and an extension overriding `required` to `false`. -/
def mutStore : FieldStore := [{ type := .string, required := some true }]

/-- The declared schema of the mutation scenario. -/
def mutSchema : PluginSchema := { entities := [("user", { fields := [("email", 0)] })] }

/-- The extension of the mutation scenario. -/
def mutExtension : PluginExtension :=
  { entities := [("user",
      { fields := [("email", { override := some { required := some false } })] })] }

/-- C1: `applyExtension` deep-copies entity objects and field maps but
aliases the field-definition objects themselves, so a field `override`
mutates the plugin's original static declaration: after resolution, the
field the original schema declaration reaches has `required := false`
instead of its declared `required := true`. -/
theorem applyExtension_override_mutates_declared_schema :
    readDeclaredField mutStore mutSchema "user" "email" =
      some { type := .string, required := some true } ∧
    readDeclaredField (applyExtension mutStore mutSchema mutExtension "auth").1
        mutSchema "user" "email" =
      some { type := .string, required := some false } ∧
    readDeclaredField (applyExtension mutStore mutSchema mutExtension "auth").1
        mutSchema "user" "email" ≠
      readDeclaredField mutStore mutSchema "user" "email" := by
  refine ⟨rfl, rfl, ?_⟩
  decide

/-- Auxiliary: `jsSet` with a fresh key appends. -/
theorem jsSet_of_not_mem {α : Type} (m : List (String × α)) (k : String) (v : α)
    (h : ∀ kv ∈ m, kv.1 ≠ k) : jsSet m k v = m ++ [(k, v)] := by
  induction m with
  | nil => rfl
  | cons kv rest ih =>
    have hne : (kv.1 == k) = false := by
      simpa using h kv (by simp)
    rw [jsSet]
    simp only [hne, Bool.false_eq_true, if_false, List.cons_append, List.cons.injEq, true_and]
    exact ih (fun kv' h' => h kv' (by simp [h']))

/-- Auxiliary: folding `jsSet` over distinct fresh keys appends. -/
theorem foldl_jsSet_eq_append {α : Type} :
    ∀ (l acc : List (String × α)), (l.map Prod.fst).Nodup →
    (∀ kv ∈ l, ∀ kv' ∈ acc, kv'.1 ≠ kv.1) →
    l.foldl (fun a nd => jsSet a nd.1 nd.2) acc = acc ++ l
  | [], acc, _, _ => by simp
  | nd :: rest, acc, hnd, hdisj => by
    have hdisj' : ∀ kv ∈ rest, ∀ kv' ∈ acc ++ [nd], kv'.1 ≠ kv.1 := by
      intro kv hkv kv' hkv'
      rcases List.mem_append.mp hkv' with h' | h'
      · exact hdisj kv (List.mem_cons_of_mem nd hkv) kv' h'
      · have he : kv' = nd := by simpa using h'
        rw [he]
        have hnm : nd.1 ∉ rest.map Prod.fst := (List.nodup_cons.mp (by simpa using hnd)).1
        intro hc
        exact hnm (hc ▸ List.mem_map_of_mem Prod.fst hkv)
    rw [List.foldl_cons, jsSet_of_not_mem acc nd.1 nd.2
        (fun kv' h' => hdisj nd (List.mem_cons_self nd rest) kv' h'),
      foldl_jsSet_eq_append rest (acc ++ [nd])
        (by simpa using (List.nodup_cons.mp (by simpa using hnd)).2) hdisj']
    simp

/-- Auxiliary: the entity-map copy is the identity on JS object maps
(whose keys are unique). -/
theorem copyEntities_eq_self (l : List (String × PluginEntityDef))
    (hnd : (l.map Prod.fst).Nodup) : copyEntities l = l := by
  rw [copyEntities, foldl_jsSet_eq_append l [] hnd (by simp)]
  rfl

/-- Erase the plugin metadata stub from an entity. -/
def dropPlugin (e : Entity) : Entity := { e with plugin := none }

/-- C4 (amended): resolving a plugin with the empty extension `{}`
leaves the heap untouched and produces exactly the entities obtained by
mapping `toZapiEntity` over the raw schema declarations — up to the
plugin metadata stub (`entity.plugin`) that `resolvePlugin` attaches to
each produced entity and `toZapiEntity` alone does not. -/
theorem resolvePlugin_emptyExtension_modulo_stub (meta : PluginMeta)
    (schema : PluginSchema) (store : FieldStore)
    (hnd : (schema.entities.map Prod.fst).Nodup) :
    (resolvePluginEntities meta (some schema) (some emptyExtension) store).1 = store ∧
    ((resolvePluginEntities meta (some schema) (some emptyExtension) store).2).map dropPlugin =
      schema.entities.map (fun nd => toZapiEntity store nd.1 nd.2) := by
  have hcopy := copyEntities_eq_self schema.entities hnd
  constructor
  · simp [resolvePluginEntities, applyExtension, emptyExtension]
  · simp only [resolvePluginEntities, applyExtension, emptyExtension, Option.getD_some,
      List.foldl_nil, hcopy, List.map_map]
    apply List.map_congr_left
    intro nd _
    rfl

/-- Witness for `resolvePlugin_emptyExtension_modulo_stub` at a
one-entity schema. -/
theorem resolvePlugin_emptyExtension_modulo_stub_witness :
    (resolvePluginEntities { id := "p" } (some mutSchema) (some emptyExtension) mutStore).1 =
      mutStore ∧
    ((resolvePluginEntities { id := "p" } (some mutSchema) (some emptyExtension) mutStore).2).map
        dropPlugin =
      mutSchema.entities.map (fun nd => toZapiEntity mutStore nd.1 nd.2) :=
  resolvePlugin_emptyExtension_modulo_stub { id := "p" } mutSchema mutStore (by decide)

/-- C4 (counterexample to the claim as stated): the entities produced by
resolving with the empty extension carry the attached plugin stub
(`plugin := some ...`), while `toZapiEntity` leaves `plugin := none`; the
two lists are therefore not structurally identical. -/
theorem resolvePlugin_emptyExtension_not_structurally_identical :
    ((resolvePluginEntities { id := "p" } (some mutSchema) (some emptyExtension) mutStore).2.map
        (fun e => e.plugin)) =
      [some { id := "p", basePath := some "/p" }] ∧
    ((mutSchema.entities.map (fun nd => toZapiEntity mutStore nd.1 nd.2)).map
        (fun e => e.plugin)) = [none] ∧
    (resolvePluginEntities { id := "p" } (some mutSchema) (some emptyExtension) mutStore).2 ≠
      mutSchema.entities.map (fun nd => toZapiEntity mutStore nd.1 nd.2) := by
  refine ⟨by decide, by decide, fun h => ?_⟩
  have h2 := congrArg (List.map (fun e : Entity => e.plugin)) h
  exact absurd h2 (by decide)

/-! ## Theory of the dependency initializer -/

/-- Every declared dependency id is registered. -/
def DepsClosed (ps : List ZapiPlugin) : Prop :=
  ∀ p ∈ ps, ∀ d ∈ p.deps, ∃ q ∈ ps, q.id = d

/-- `rank` certifies acyclicity of the dependency graph: every
dependency has strictly smaller rank than its dependent.  A finite
graph is acyclic exactly when such a ranking exists. -/
def RankedBy (ps : List ZapiPlugin) (rank : String → Nat) : Prop :=
  ∀ p ∈ ps, ∀ d ∈ p.deps, rank d < rank p.id

/-- Every plugin in `l` is preceded by a plugin carrying each of its
dependency ids. -/
def DepsRespected (l : List ZapiPlugin) : Prop :=
  ∀ p ∈ l, ∀ d ∈ p.deps, ∃ l1 q l2 l3, q.id = d ∧ l = l1 ++ q :: l2 ++ p :: l3

/-- Unique ids make the id map injective on the registry. -/
theorem nodupIds_inj {ps : List ZapiPlugin} (hnd : (idsOf ps).Nodup)
    {p q : ZapiPlugin} (hp : p ∈ ps) (hq : q ∈ ps) (h : p.id = q.id) : p = q :=
  List.inj_on_of_nodup_map hnd hp hq h

/-- A successful plugin lookup returns a registered plugin with the
looked-up id. -/
theorem lookupPlugin_mem {ps : List ZapiPlugin} {i : String} {q : ZapiPlugin}
    (h : lookupPlugin ps i = some q) : q ∈ ps ∧ q.id = i := by
  refine ⟨List.mem_reverse.mp (List.mem_of_find?_eq_some h), ?_⟩
  simpa using List.find?_some h

/-- A registered dependency id is found by the lookup. -/
theorem lookupPlugin_isSome_of_exists {ps : List ZapiPlugin} {i : String}
    (h : ∃ q ∈ ps, q.id = i) : ∃ q, lookupPlugin ps i = some q := by
  rcases h with ⟨q, hq, hid⟩
  have : (ps.reverse.find? (fun p => p.id == i)).isSome = true :=
    List.find?_isSome.mpr ⟨q, List.mem_reverse.mpr hq, by simp [hid]⟩
  rcases Option.isSome_iff_exists.mp this with ⟨r, hr⟩
  exact ⟨r, hr⟩

/-- A successful visit leaves the `visiting` set unchanged
(parametric dependency-loop version). -/
theorem visitDeps_ok_visiting {ps : List ZapiPlugin}
    {vis : ZapiPlugin → SortState → Except SortError SortState}
    (hvis : ∀ q t t', vis q t = .ok t' → t'.visiting = t.visiting) :
    ∀ (pid : String) (ds : List String) (s s' : SortState),
    visitDeps ps vis pid ds s = .ok s' → s'.visiting = s.visiting := by
  intro pid ds
  induction ds with
  | nil => intro s s' h; cases h; rfl
  | cons d rest ih =>
    intro s s' h
    rw [visitDeps] at h
    cases hl : lookupPlugin ps d with
    | none => simp only [hl] at h; cases h
    | some dep =>
      simp only [hl] at h
      cases hv : vis dep s with
      | error e => simp only [hv] at h; cases h
      | ok s1 => simp only [hv] at h; rw [ih s1 s' h, hvis dep s s1 hv]

/-- A successful visit leaves the `visiting` set unchanged. -/
theorem visit_ok_visiting {ps : List ZapiPlugin} :
    ∀ (fuel : Nat) (p : ZapiPlugin) (s s' : SortState),
    visit ps fuel p s = .ok s' → s'.visiting = s.visiting := by
  intro fuel
  induction fuel with
  | zero => intro p s s' h; cases h
  | succ fuel ih =>
    intro p s s' h
    rw [visit] at h
    by_cases h1 : p.id ∈ s.visited
    · rw [if_pos h1] at h; cases h; rfl
    · rw [if_neg h1] at h
      by_cases h2 : p.id ∈ s.visiting
      · rw [if_pos h2] at h; cases h
      · rw [if_neg h2] at h
        cases hds : visitDeps ps (visit ps fuel) p.id p.deps { s with visiting := p.id :: s.visiting } with
        | error e => simp only [hds] at h; cases h
        | ok s2 =>
          simp only [hds] at h
          cases h
          have := visitDeps_ok_visiting (fun q t t' => ih q t t') p.id p.deps _ _ hds
          simp only [this]
          exact List.erase_cons_head p.id s.visiting

/-- A successful visit marks the visited plugin's id. -/
theorem visit_ok_self_visited {ps : List ZapiPlugin} {fuel : Nat} {p : ZapiPlugin}
    {s s' : SortState} (h : visit ps fuel p s = .ok s') : p.id ∈ s'.visited := by
  cases fuel with
  | zero => cases h
  | succ fuel =>
    rw [visit] at h
    by_cases h1 : p.id ∈ s.visited
    · rw [if_pos h1] at h; cases h; exact h1
    · rw [if_neg h1] at h
      by_cases h2 : p.id ∈ s.visiting
      · rw [if_pos h2] at h; cases h
      · rw [if_neg h2] at h
        cases hds : visitDeps ps (visit ps fuel) p.id p.deps { s with visiting := p.id :: s.visiting } with
        | error e => simp only [hds] at h; cases h
        | ok s2 => simp only [hds] at h; cases h; exact List.mem_cons_self _ _

/-- The invariant maintained by the depth-first sort. -/
structure SortInv (ps : List ZapiPlugin) (s : SortState) : Prop where
  sub : ∀ q ∈ s.sorted, q ∈ ps
  vis_eq : s.visited = (s.sorted.map (fun p => p.id)).reverse
  nod : (s.sorted.map (fun p => p.id)).Nodup
  before : DepsRespected s.sorted
  visiting_nod : s.visiting.Nodup
  visiting_sub : s.visiting ⊆ idsOf ps
  disj : ∀ x ∈ s.visiting, x ∉ s.visited

/-- The empty initial state satisfies the invariant. -/
theorem sortInv_init (ps : List ZapiPlugin) : SortInv ps {} := by
  refine ⟨?_, rfl, List.nodup_nil, ?_, List.nodup_nil, ?_, ?_⟩ <;> intro x hx <;> cases hx

/-- The `visiting` stack never outgrows the registry. -/
theorem visiting_length_le {ps : List ZapiPlugin} {s : SortState} (hInv : SortInv ps s) :
    s.visiting.length ≤ ps.length := by
  have h := (List.subperm_of_subset hInv.visiting_nod hInv.visiting_sub).length_le
  simpa [idsOf] using h

/-- Growing `sorted` preserves prior `visited` membership. -/
theorem visited_mono_of_prefix {ps : List ZapiPlugin} {t s : SortState}
    (hT : SortInv ps t) (hS : SortInv ps s)
    (hpre : ∃ tail, s.sorted = t.sorted ++ tail) :
    ∀ x ∈ t.visited, x ∈ s.visited := by
  intro x hx
  rcases hpre with ⟨tail, htail⟩
  rw [hS.vis_eq, htail]
  rw [hT.vis_eq] at hx
  simp only [List.map_append, List.reverse_append, List.mem_append]
  exact Or.inr hx

/-- Dependency-loop companion of `visit_total`: under the invariant, a
ranked registry makes the dependency loop succeed and visit every
listed dependency. -/
theorem visitDeps_total (ps : List ZapiPlugin) (rank : String → Nat)
    (vis : ZapiPlugin → SortState → Except SortError SortState) (V : List String)
    (hvis : ∀ q t, q ∈ ps → SortInv ps t → t.visiting = V → (∀ x ∈ V, rank q.id < rank x) →
      ∃ t', vis q t = .ok t' ∧ SortInv ps t' ∧ t'.visiting = V ∧
        (∃ tail, t'.sorted = t.sorted ++ tail) ∧ q.id ∈ t'.visited) :
    ∀ (pid : String) (ds : List String) (s : SortState), SortInv ps s → s.visiting = V →
    (∀ d ∈ ds, ∃ q ∈ ps, q.id = d) →
    (∀ d ∈ ds, ∀ x ∈ V, rank d < rank x) →
    ∃ s', visitDeps ps vis pid ds s = .ok s' ∧ SortInv ps s' ∧ s'.visiting = V ∧
      (∃ tail, s'.sorted = s.sorted ++ tail) ∧ (∀ d ∈ ds, d ∈ s'.visited) := by
  intro pid ds
  induction ds with
  | nil =>
    intro s hInv hV _ _
    exact ⟨s, rfl, hInv, hV, ⟨[], by simp⟩, by intro d hd; cases hd⟩
  | cons d rest ih =>
    intro s hInv hV hex hrk
    obtain ⟨q0, hq0⟩ := lookupPlugin_isSome_of_exists (hex d (List.mem_cons_self d rest))
    obtain ⟨hq0mem, hq0id⟩ := lookupPlugin_mem hq0
    obtain ⟨t', hvq, hInv', hV', ⟨tail1, htail1⟩, hvisited⟩ :=
      hvis q0 s hq0mem hInv hV
        (by intro x hx; rw [hq0id]; exact hrk d (List.mem_cons_self d rest) x hx)
    obtain ⟨s', hrest, hInv'', hV'', ⟨tail2, htail2⟩, hall⟩ :=
      ih t' hInv' hV' (fun d' hd' => hex d' (List.mem_cons_of_mem d hd'))
        (fun d' hd' x hx => hrk d' (List.mem_cons_of_mem d hd') x hx)
    refine ⟨s', ?_, hInv'', hV'',
      ⟨tail1 ++ tail2, by rw [htail2, htail1, List.append_assoc]⟩, ?_⟩
    · rw [visitDeps]
      simp only [hq0, hvq]
      exact hrest
    · intro d' hd'
      rcases List.mem_cons.mp hd' with h | h
      · subst h
        exact visited_mono_of_prefix hInv' hInv'' ⟨tail2, htail2⟩ d' (hq0id ▸ hvisited)
      · exact hall d' h

/-- The visit of any registered plugin succeeds under the invariant
when the registry has unique ids, all dependencies are registered, the
graph is ranked (acyclic), and the fuel covers the remaining depth:
the result extends `sorted`, preserves the invariant and the
`visiting` stack, and marks the plugin visited. -/
theorem visit_total (ps : List ZapiPlugin) (rank : String → Nat)
    (hc : DepsClosed ps) (hr : RankedBy ps rank) :
    ∀ (fuel : Nat) (p : ZapiPlugin) (s : SortState), p ∈ ps → SortInv ps s →
    (∀ x ∈ s.visiting, rank p.id < rank x) →
    ps.length + 1 ≤ fuel + s.visiting.length →
    ∃ s', visit ps fuel p s = .ok s' ∧ SortInv ps s' ∧ s'.visiting = s.visiting ∧
      (∃ tail, s'.sorted = s.sorted ++ tail) ∧ p.id ∈ s'.visited := by
  intro fuel
  induction fuel with
  | zero =>
    intro p s hp hInv hrk hfuel
    have := visiting_length_le hInv
    omega
  | succ fuel ih =>
    intro p s hp hInv hrk hfuel
    by_cases h1 : p.id ∈ s.visited
    · exact ⟨s, by rw [visit, if_pos h1], hInv, rfl, ⟨[], by simp⟩, h1⟩
    · by_cases h2 : p.id ∈ s.visiting
      · exact absurd (hrk p.id h2) (lt_irrefl _)
      · have hInv1 : SortInv ps { s with visiting := p.id :: s.visiting } := by
          refine ⟨hInv.sub, hInv.vis_eq, hInv.nod, hInv.before, ?_, ?_, ?_⟩
          · exact List.nodup_cons.mpr ⟨h2, hInv.visiting_nod⟩
          · intro x hx
            rcases List.mem_cons.mp hx with h | h
            · subst h; exact List.mem_map_of_mem _ hp
            · exact hInv.visiting_sub h
          · intro x hx
            rcases List.mem_cons.mp hx with h | h
            · subst h; exact h1
            · exact hInv.disj x h
        have hvisSpec : ∀ q t, q ∈ ps → SortInv ps t → t.visiting = p.id :: s.visiting →
            (∀ x ∈ p.id :: s.visiting, rank q.id < rank x) →
            ∃ t', visit ps fuel q t = .ok t' ∧ SortInv ps t' ∧
              t'.visiting = p.id :: s.visiting ∧
              (∃ tail, t'.sorted = t.sorted ++ tail) ∧ q.id ∈ t'.visited := by
          intro q t hq hIt hVt hrkq
          obtain ⟨t', h⟩ := ih q t hq hIt (by rw [hVt]; exact hrkq)
            (by rw [hVt]; simp only [List.length_cons]; omega)
          exact ⟨t', h.1, h.2.1, by rw [h.2.2.1, hVt], h.2.2.2.1, h.2.2.2.2⟩
        obtain ⟨s2, hds, hInv2, hV2, ⟨tail, htail⟩, hdeps⟩ :=
          visitDeps_total ps rank (visit ps fuel) (p.id :: s.visiting) hvisSpec p.id p.deps
            { s with visiting := p.id :: s.visiting } hInv1 rfl (hc p hp)
            (by
              intro d hd x hx
              rcases List.mem_cons.mp hx with h | h
              · subst h; exact hr p hp d hd
              · exact lt_trans (hr p hp d hd) (hrk x h))
        have hV' : s2.visiting.erase p.id = s.visiting := by
          rw [hV2]; exact List.erase_cons_head p.id s.visiting
        have hpnot : p.id ∉ s2.sorted.map (fun p => p.id) := by
          intro hmem
          have hv : p.id ∈ s2.visited := by
            rw [hInv2.vis_eq]; exact List.mem_reverse.mpr hmem
          exact hInv2.disj p.id (by rw [hV2]; exact List.mem_cons_self _ _) hv
        refine ⟨{ sorted := s2.sorted ++ [p], visited := p.id :: s2.visited,
                  visiting := s2.visiting.erase p.id }, ?_, ?_, hV', ?_,
                List.mem_cons_self _ _⟩
        · rw [visit, if_neg h1, if_neg h2]
          simp only [hds]
        · refine ⟨?_, ?_, ?_, ?_, ?_, ?_, ?_⟩
          · intro q hq
            rcases List.mem_append.mp hq with h | h
            · exact hInv2.sub q h
            · rw [List.mem_singleton.mp h]; exact hp
          · simp only [List.map_append, List.reverse_append, hInv2.vis_eq]
            rfl
          · rw [List.map_append]
            refine List.nodup_append.mpr ⟨hInv2.nod, List.nodup_singleton _, ?_⟩
            intro x hx hx'
            rw [show ((List.map (fun p => p.id) [p]) = [p.id]) from rfl] at hx'
            rw [List.mem_singleton.mp hx'] at hx
            exact hpnot hx
          · intro q hq d hd
            rcases List.mem_append.mp hq with h | h
            · obtain ⟨l1, q', l2, l3, hid, heq⟩ := hInv2.before q h d hd
              exact ⟨l1, q', l2, l3 ++ [p], hid, by
                rw [heq]; simp [List.append_assoc]⟩
            · rw [List.mem_singleton.mp h]
              have hdv : d ∈ s2.visited := hdeps d (by rw [← List.mem_singleton.mp h]; exact hd)
              rw [hInv2.vis_eq] at hdv
              obtain ⟨q', hq'mem, hq'id⟩ := List.mem_map.mp (List.mem_reverse.mp hdv)
              obtain ⟨u, v, huv⟩ := List.append_of_mem hq'mem
              exact ⟨u, q', v, [], hq'id, by rw [huv]⟩
          · rw [hV']; exact hInv.visiting_nod
          · rw [hV']; exact hInv.visiting_sub
          · intro x hx
            rw [hV'] at hx
            intro hmem
            rcases List.mem_cons.mp hmem with h | h
            · exact h2 (h ▸ hx)
            · exact hInv2.disj x (by rw [hV2]; exact List.mem_cons_of_mem _ hx) h
        · exact ⟨tail ++ [p], by rw [htail]; simp [List.append_assoc]⟩

/-- The top-level sort loop succeeds on a ranked, closed registry and
visits every listed plugin. -/
theorem visitAll_total (ps : List ZapiPlugin) (rank : String → Nat)
    (hc : DepsClosed ps) (hr : RankedBy ps rank) :
    ∀ (l : List ZapiPlugin) (s : SortState), (∀ p ∈ l, p ∈ ps) → SortInv ps s →
    s.visiting = [] →
    ∃ s', visitAll (visit ps (ps.length + 1)) l s = .ok s' ∧ SortInv ps s' ∧
      s'.visiting = [] ∧ (∃ tail, s'.sorted = s.sorted ++ tail) ∧
      (∀ p ∈ l, p.id ∈ s'.visited) := by
  intro l
  induction l with
  | nil =>
    intro s _ hInv hV
    exact ⟨s, rfl, hInv, hV, ⟨[], by simp⟩, by intro p hp; cases hp⟩
  | cons p rest ih =>
    intro s hl hInv hV
    obtain ⟨s1, hv, hInv1, hV1, ⟨tail1, htail1⟩, hvisited⟩ :=
      visit_total ps rank hc hr (ps.length + 1) p s (hl p (List.mem_cons_self p rest)) hInv
        (by rw [hV]; intro x hx; cases hx) (by rw [hV]; simp)
    obtain ⟨s', hrest, hInv', hV', ⟨tail2, htail2⟩, hall⟩ :=
      ih s1 (fun q hq => hl q (List.mem_cons_of_mem p hq)) hInv1 (by rw [hV1, hV])
    refine ⟨s', ?_, hInv', hV',
      ⟨tail1 ++ tail2, by rw [htail2, htail1, List.append_assoc]⟩, ?_⟩
    · rw [visitAll]
      simp only [hv]
      exact hrest
    · intro q hq
      rcases List.mem_cons.mp hq with h | h
      · subst h
        exact visited_mono_of_prefix hInv1 hInv' ⟨tail2, htail2⟩ q.id hvisited
      · exact hall q h

/-- `topologicalSort` on a unique-id, dependency-closed, ranked
(acyclic) registry succeeds; the output is a permutation-free ordering
of all registered plugins in which every dependency precedes its
dependent. -/
theorem topologicalSort_total (ps : List ZapiPlugin) (rank : String → Nat)
    (hnd : (idsOf ps).Nodup) (hc : DepsClosed ps) (hr : RankedBy ps rank) :
    ∃ l, topologicalSort ps = .ok l ∧ (∀ q ∈ l, q ∈ ps) ∧
      ((l.map (fun p => p.id)).Nodup) ∧ DepsRespected l ∧ (∀ p ∈ ps, p ∈ l) := by
  obtain ⟨s', hall, hInv', _, _, hvisited⟩ :=
    visitAll_total ps rank hc hr ps {} (fun p hp => hp) (sortInv_init ps) rfl
  refine ⟨s'.sorted, ?_, hInv'.sub, hInv'.nod, hInv'.before, ?_⟩
  · rw [topologicalSort]
    simp only [hall]
  · intro p hp
    have hid : p.id ∈ (s'.sorted.map (fun p => p.id)) := by
      have := hvisited p hp
      rw [hInv'.vis_eq] at this
      exact List.mem_reverse.mp this
    obtain ⟨q, hqmem, hqid⟩ := List.mem_map.mp hid
    have := nodupIds_inj hnd (hInv'.sub q hqmem) hp hqid
    exact this ▸ hqmem

/-- Every lifecycle event of a plugin carries that plugin's id. -/
theorem pluginEvents_pid (p : ZapiPlugin) : ∀ e ∈ pluginEvents p, e.pid = p.id := by
  intro e he
  rcases List.mem_append.mp he with h | h
  · cases hr : p.hasOnRegister
    · rw [hr] at h; cases h
    · rw [hr] at h; rw [List.mem_singleton.mp h]; rfl
  · cases hr : p.hasOnInit
    · rw [hr] at h; cases h
    · rw [hr] at h; rw [List.mem_singleton.mp h]; rfl

/-- The flattened trace of a block list, filtered down to two ids that
occur only at the designated positions, is exactly those two blocks in
order. -/
theorem flatten_filter_pair (A B : ZapiPlugin) (l1 l2 l3 : List ZapiPlugin)
    (h1 : ∀ C ∈ l1, C.id ≠ A.id ∧ C.id ≠ B.id)
    (h2 : ∀ C ∈ l2, C.id ≠ A.id ∧ C.id ≠ B.id)
    (h3 : ∀ C ∈ l3, C.id ≠ A.id ∧ C.id ≠ B.id) :
    (((l1 ++ B :: l2 ++ A :: l3).map pluginEvents).flatten).filter
        (fun e => e.pid == A.id || e.pid == B.id) =
      pluginEvents B ++ pluginEvents A := by
  have block_nil : ∀ (l : List ZapiPlugin), (∀ C ∈ l, C.id ≠ A.id ∧ C.id ≠ B.id) →
      ((l.map pluginEvents).flatten).filter (fun e => e.pid == A.id || e.pid == B.id) = [] := by
    intro l hl
    induction l with
    | nil => rfl
    | cons C rest ih =>
      rw [List.map_cons, List.flatten_cons, List.filter_append]
      rw [List.filter_eq_nil_iff.mpr (fun e he => by
        have := pluginEvents_pid C e he
        simp [this, (hl C (List.mem_cons_self C rest)).1, (hl C (List.mem_cons_self C rest)).2])]
      rw [ih (fun C' hC' => hl C' (List.mem_cons_of_mem C hC'))]
      rfl
  have block_self : ∀ (C : ZapiPlugin), (C.id = A.id ∨ C.id = B.id) →
      (pluginEvents C).filter (fun e => e.pid == A.id || e.pid == B.id) = pluginEvents C := by
    intro C hC
    refine List.filter_eq_self.mpr (fun e he => ?_)
    have := pluginEvents_pid C e he
    rcases hC with h | h <;> simp [this, h]
  have hsplit : (l1 ++ B :: l2 ++ A :: l3).map pluginEvents =
      l1.map pluginEvents ++ pluginEvents B :: (l2.map pluginEvents ++
        pluginEvents A :: l3.map pluginEvents) := by
    simp
  rw [hsplit]
  rw [List.flatten_append, List.flatten_cons, List.flatten_append, List.flatten_cons]
  simp only [List.filter_append]
  rw [block_nil l1 h1, block_nil l2 h2, block_nil l3 h3,
    block_self B (Or.inr rfl), block_self A (Or.inl rfl)]
  simp

/-- From a `Nodup` id list and a dependency decomposition, every other
block element differs from both chosen ids. -/
theorem decomposition_ids_distinct (A B : ZapiPlugin) (l1 l2 l3 : List ZapiPlugin)
    (hnod : (((l1 ++ B :: l2 ++ A :: l3).map (fun p => p.id))).Nodup) :
    (∀ C ∈ l1, C.id ≠ A.id ∧ C.id ≠ B.id) ∧
    (∀ C ∈ l2, C.id ≠ A.id ∧ C.id ≠ B.id) ∧
    (∀ C ∈ l3, C.id ≠ A.id ∧ C.id ≠ B.id) ∧ A.id ≠ B.id := by
  rw [show ((l1 ++ B :: l2 ++ A :: l3).map (fun p => p.id)) =
      (l1.map (fun p => p.id)) ++ B.id :: ((l2.map (fun p => p.id)) ++
        A.id :: (l3.map (fun p => p.id))) from by simp] at hnod
  obtain ⟨hn1, hn2, hdisj⟩ := List.nodup_append.mp hnod
  obtain ⟨hBnot, hn3⟩ := List.nodup_cons.mp hn2
  obtain ⟨hn4, hn5, hdisj2⟩ := List.nodup_append.mp hn3
  obtain ⟨hAnot, _⟩ := List.nodup_cons.mp hn5
  refine ⟨?_, ?_, ?_, ?_⟩
  · intro C hC
    constructor
    · intro h
      exact hdisj (List.mem_map_of_mem _ hC)
        (h ▸ List.mem_cons_of_mem _ (List.mem_append.mpr (Or.inr (List.mem_cons_self _ _))))
    · intro h
      exact hdisj (List.mem_map_of_mem _ hC) (h ▸ List.mem_cons_self _ _)
  · intro C hC
    constructor
    · intro h
      exact hdisj2 (List.mem_map_of_mem _ hC) (h ▸ List.mem_cons_self _ _)
    · intro h
      exact hBnot (List.mem_append.mpr (Or.inl (h ▸ List.mem_map_of_mem _ hC)))
  · intro C hC
    constructor
    · intro h
      exact hAnot (h ▸ List.mem_map_of_mem _ hC)
    · intro h
      exact hBnot (List.mem_append.mpr (Or.inr (List.mem_cons_of_mem _
        (h ▸ List.mem_map_of_mem _ hC))))
  · intro h
    exact hBnot (List.mem_append.mpr (Or.inr (h ▸ List.mem_cons_self _ _)))

/-- C2: for every registry with unique ids whose declared dependency
ids are all registered and whose dependency graph is acyclic
(certified by a rank function), and for any registration order,
`initializeAllPlugins` resolves with a lifecycle trace in which, for
every plugin `A` depending on `B`, the events touching `A` or `B` are
exactly `B`'s `onRegister`/`onInit` followed by `A`'s — so both of
`B`'s hooks complete before `A`'s `onRegister` begins. -/
theorem initializeAllPlugins_dependency_order (ps : List ZapiPlugin) (rank : String → Nat)
    (hnd : (idsOf ps).Nodup) (hc : DepsClosed ps) (hr : RankedBy ps rank) :
    ∃ tr, initializeAllPlugins ps = .ok tr ∧
      ∀ A ∈ ps, ∀ B ∈ ps, B.id ∈ A.deps →
        tr.filter (fun e => e.pid == A.id || e.pid == B.id) =
          pluginEvents B ++ pluginEvents A := by
  obtain ⟨l, hsort, hsub, hnodl, hbefore, hall⟩ := topologicalSort_total ps rank hnd hc hr
  refine ⟨(l.map pluginEvents).flatten, ?_, ?_⟩
  · rw [initializeAllPlugins]
    simp only [hsort]
  · intro A hA B hB hdep
    obtain ⟨l1, q, l2, l3, hqid, heq⟩ := hbefore A (hall A hA) B.id hdep
    have hqB : q = B := by
      have hqmem : q ∈ l := by
        rw [heq]
        simp
      exact nodupIds_inj hnd (hsub q hqmem) hB hqid
    subst hqB
    rw [heq] at hnodl ⊢
    obtain ⟨hd1, hd2, hd3, _⟩ := decomposition_ids_distinct A q l1 l2 l3 hnodl
    exact flatten_filter_pair A q l1 l2 l3 hd1 hd2 hd3

/-- Witness for `initializeAllPlugins_dependency_order` on the two-
plugin registry `a` (depends on `b`) and `b`. -/
theorem initializeAllPlugins_dependency_order_witness :
    ∃ tr, initializeAllPlugins
        [{ id := "a", deps := ["b"] }, { id := "b", deps := [] }] = .ok tr ∧
      ∀ A ∈ [({ id := "a", deps := ["b"] } : ZapiPlugin), { id := "b", deps := [] }],
        ∀ B ∈ [({ id := "a", deps := ["b"] } : ZapiPlugin), { id := "b", deps := [] }],
        B.id ∈ A.deps →
          tr.filter (fun e => e.pid == A.id || e.pid == B.id) =
            pluginEvents B ++ pluginEvents A :=
  initializeAllPlugins_dependency_order
    [{ id := "a", deps := ["b"] }, { id := "b", deps := [] }]
    (fun i => if i = "b" then 0 else 1)
    (by decide) (by unfold DepsClosed; decide) (by unfold RankedBy; decide)

/-- Neither id of the mutually-dependent pair has been marked
visited. -/
def PairFree (A B : ZapiPlugin) (s : SortState) : Prop :=
  A.id ∉ s.visited ∧ B.id ∉ s.visited

/-- A state predicate preserved by each visit is preserved by the
dependency loop. -/
theorem visitDeps_preserves {ps : List ZapiPlugin}
    {vis : ZapiPlugin → SortState → Except SortError SortState}
    (P : SortState → Prop)
    (hvis : ∀ q t t', q ∈ ps → P t → vis q t = .ok t' → P t') :
    ∀ (pid : String) (ds : List String) (s s' : SortState), P s →
    visitDeps ps vis pid ds s = .ok s' → P s' := by
  intro pid ds
  induction ds with
  | nil => intro s s' hP h; cases h; exact hP
  | cons d rest ih =>
    intro s s' hP h
    rw [visitDeps] at h
    cases hl : lookupPlugin ps d with
    | none => simp only [hl] at h; cases h
    | some dep =>
      simp only [hl] at h
      cases hv : vis dep s with
      | error e => simp only [hv] at h; cases h
      | ok s1 =>
        simp only [hv] at h
        exact ih s1 s' (hvis dep s s1 (lookupPlugin_mem hl).1 hP hv) h

/-- If the dependency loop succeeds, every listed dependency was
successfully visited from a state satisfying the preserved
predicate. -/
theorem visitDeps_extract {ps : List ZapiPlugin}
    {vis : ZapiPlugin → SortState → Except SortError SortState}
    (P : SortState → Prop)
    (hvis : ∀ q t t', q ∈ ps → P t → vis q t = .ok t' → P t') :
    ∀ (pid : String) (ds : List String) (s s' : SortState), P s →
    visitDeps ps vis pid ds s = .ok s' →
    ∀ d ∈ ds, ∃ q t t', lookupPlugin ps d = some q ∧ P t ∧ vis q t = .ok t' := by
  intro pid ds
  induction ds with
  | nil => intro s s' _ _ d hd; cases hd
  | cons d0 rest ih =>
    intro s s' hP h d hd
    rw [visitDeps] at h
    cases hl : lookupPlugin ps d0 with
    | none => simp only [hl] at h; cases h
    | some dep =>
      simp only [hl] at h
      cases hv : vis dep s with
      | error e => simp only [hv] at h; cases h
      | ok s1 =>
        simp only [hv] at h
        rcases List.mem_cons.mp hd with hd' | hd'
        · subst hd'
          exact ⟨dep, s, s1, hl, hP, hv⟩
        · exact ih s1 s' (hvis dep s s1 (lookupPlugin_mem hl).1 hP hv) h d hd'

/-- Core of the cycle argument: with unique ids and a registered
mutually-dependent pair `A`, `B`, a visit can only succeed when the
visited plugin is neither `A` nor `B`, and it keeps both unvisited. -/
theorem visit_pairfree {ps : List ZapiPlugin} {A B : ZapiPlugin}
    (hnd : (idsOf ps).Nodup) (hA : A ∈ ps) (hB : B ∈ ps)
    (hab : B.id ∈ A.deps) (hba : A.id ∈ B.deps) :
    ∀ (fuel : Nat) (p : ZapiPlugin) (s s' : SortState), p ∈ ps → PairFree A B s →
    visit ps fuel p s = .ok s' →
    PairFree A B s' ∧ p.id ≠ A.id ∧ p.id ≠ B.id := by
  intro fuel
  induction fuel with
  | zero => intro p s s' _ _ h; cases h
  | succ fuel ih =>
    intro p s s' hp hPF h
    rw [visit] at h
    by_cases h1 : p.id ∈ s.visited
    · rw [if_pos h1] at h
      cases h
      refine ⟨hPF, ?_, ?_⟩
      · intro he; exact hPF.1 (he ▸ h1)
      · intro he; exact hPF.2 (he ▸ h1)
    · rw [if_neg h1] at h
      by_cases h2 : p.id ∈ s.visiting
      · rw [if_pos h2] at h; cases h
      · rw [if_neg h2] at h
        cases hds : visitDeps ps (visit ps fuel) p.id p.deps
            { s with visiting := p.id :: s.visiting } with
        | error e => simp only [hds] at h; cases h
        | ok s2 =>
          simp only [hds] at h
          cases h
          have hpres : ∀ q t t', q ∈ ps → PairFree A B t → visit ps fuel q t = .ok t' →
              PairFree A B t' :=
            fun q t t' hq hP h' => (ih q t t' hq hP h').1
          have hPF1 : PairFree A B { s with visiting := p.id :: s.visiting } := hPF
          have hPF2 : PairFree A B s2 :=
            visitDeps_preserves (PairFree A B) hpres p.id p.deps _ s2 hPF1 hds
          have hne : p.id ≠ A.id ∧ p.id ≠ B.id := by
            constructor
            · intro he
              have hpA : p = A := nodupIds_inj hnd hp hA he
              obtain ⟨q, t, t', hlq, hPt, hvq⟩ :=
                visitDeps_extract (PairFree A B) hpres p.id p.deps _ s2 hPF1 hds B.id
                  (by rw [hpA]; exact hab)
              obtain ⟨hqmem, hqid⟩ := lookupPlugin_mem hlq
              exact (ih q t t' hqmem hPt hvq).2.2 hqid
            · intro he
              have hpB : p = B := nodupIds_inj hnd hp hB he
              obtain ⟨q, t, t', hlq, hPt, hvq⟩ :=
                visitDeps_extract (PairFree A B) hpres p.id p.deps _ s2 hPF1 hds A.id
                  (by rw [hpB]; exact hba)
              obtain ⟨hqmem, hqid⟩ := lookupPlugin_mem hlq
              exact (ih q t t' hqmem hPt hvq).2.1 hqid
          refine ⟨⟨?_, ?_⟩, hne⟩
          · intro hmem
            rcases List.mem_cons.mp hmem with h | h
            · exact hne.1 h.symm
            · exact hPF2.1 h
          · intro hmem
            rcases List.mem_cons.mp hmem with h | h
            · exact hne.2 h.symm
            · exact hPF2.2 h

/-- The top-level sort loop cannot succeed if it must visit one of the
mutually-dependent pair. -/
theorem visitAll_pair_not_ok {ps : List ZapiPlugin} {A B : ZapiPlugin} {fuel : Nat}
    (hnd : (idsOf ps).Nodup) (hA : A ∈ ps) (hB : B ∈ ps)
    (hab : B.id ∈ A.deps) (hba : A.id ∈ B.deps) :
    ∀ (l : List ZapiPlugin) (s : SortState), (∀ p ∈ l, p ∈ ps) → A ∈ l →
    PairFree A B s →
    ∀ s', visitAll (visit ps fuel) l s ≠ .ok s' := by
  intro l
  induction l with
  | nil => intro s _ hAl; cases hAl
  | cons p rest ih =>
    intro s hl hAl hPF s' h
    rw [visitAll] at h
    cases hv : visit ps fuel p s with
    | error e => simp only [hv] at h; cases h
    | ok s1 =>
      simp only [hv] at h
      have hfacts := visit_pairfree hnd hA hB hab hba fuel p s s1
        (hl p (List.mem_cons_self p rest)) hPF hv
      rcases List.mem_cons.mp hAl with hA' | hA'
      · exact hfacts.2.1 (by rw [hA'])
      · exact ih s1 (fun q hq => hl q (List.mem_cons_of_mem p hq)) hA' hfacts.1 s' h

/-- Dependency-loop companion of the error classification: when every
listed dependency is registered and the visit's own failures are
circular, the loop's failures are circular. -/
theorem visitDeps_error_classified {ps : List ZapiPlugin}
    {vis : ZapiPlugin → SortState → Except SortError SortState} {V : List String}
    (hvis_err : ∀ q t e', q ∈ ps → t.visiting = V → vis q t = .error e' →
      ∃ id, e' = .circular id ∧ id ∈ idsOf ps)
    (hvis_vis : ∀ q t t', vis q t = .ok t' → t'.visiting = t.visiting) :
    ∀ (pid : String) (ds : List String) (s : SortState), s.visiting = V →
    (∀ d ∈ ds, ∃ q ∈ ps, q.id = d) →
    ∀ e, visitDeps ps vis pid ds s = .error e → ∃ id, e = .circular id ∧ id ∈ idsOf ps := by
  intro pid ds
  induction ds with
  | nil => intro s _ _ e h; cases h
  | cons d rest ih =>
    intro s hV hex e h
    rw [visitDeps] at h
    cases hl : lookupPlugin ps d with
    | none =>
      obtain ⟨q, hq⟩ := lookupPlugin_isSome_of_exists (hex d (List.mem_cons_self d rest))
      rw [hq] at hl; cases hl
    | some dep =>
      simp only [hl] at h
      cases hv : vis dep s with
      | error e' =>
        simp only [hv] at h
        cases h
        exact hvis_err dep s e (lookupPlugin_mem hl).1 hV hv
      | ok s1 =>
        simp only [hv] at h
        exact ih s1 (by rw [hvis_vis dep s s1 hv, hV])
          (fun d' hd' => hex d' (List.mem_cons_of_mem d hd')) e h

/-- With a dependency-closed registry and enough fuel (guaranteed by a
`Nodup` in-registry `visiting` stack), the only failure a visit can
produce is a circular-dependency error naming a registered plugin
id. -/
theorem visit_error_classified {ps : List ZapiPlugin} (hc : DepsClosed ps) :
    ∀ (fuel : Nat) (p : ZapiPlugin) (s : SortState), p ∈ ps → s.visiting.Nodup →
    s.visiting ⊆ idsOf ps → ps.length + 1 ≤ fuel + s.visiting.length →
    ∀ e, visit ps fuel p s = .error e → ∃ id, e = .circular id ∧ id ∈ idsOf ps := by
  intro fuel
  induction fuel with
  | zero =>
    intro p s _ hnod hsub hfuel e _
    have hle : s.visiting.length ≤ ps.length := by
      have h := (List.subperm_of_subset hnod hsub).length_le
      simpa [idsOf] using h
    omega
  | succ fuel ih =>
    intro p s hp hnod hsub hfuel e h
    rw [visit] at h
    by_cases h1 : p.id ∈ s.visited
    · rw [if_pos h1] at h; cases h
    · rw [if_neg h1] at h
      by_cases h2 : p.id ∈ s.visiting
      · rw [if_pos h2] at h
        cases h
        exact ⟨p.id, rfl, List.mem_map_of_mem _ hp⟩
      · rw [if_neg h2] at h
        cases hds : visitDeps ps (visit ps fuel) p.id p.deps
            { s with visiting := p.id :: s.visiting } with
        | error e' =>
          simp only [hds] at h
          cases h
          refine visitDeps_error_classified (V := p.id :: s.visiting) ?_
            (fun q t t' => visit_ok_visiting fuel q t t') p.id p.deps _ rfl (hc p hp) e hds
          intro q t e'' hq hVt hv
          exact ih q t hq
            (by rw [hVt]; exact List.nodup_cons.mpr ⟨h2, hnod⟩)
            (by
              rw [hVt]
              intro x hx
              rcases List.mem_cons.mp hx with hx' | hx'
              · subst hx'; exact List.mem_map_of_mem _ hp
              · exact hsub hx')
            (by rw [hVt]; simp only [List.length_cons]; omega) e'' hv
        | ok s2 => simp only [hds] at h; cases h

/-- Top-level loop version of the error classification. -/
theorem visitAll_error_classified {ps : List ZapiPlugin} (hc : DepsClosed ps) :
    ∀ (l : List ZapiPlugin) (s : SortState), (∀ p ∈ l, p ∈ ps) → s.visiting = [] →
    ∀ e, visitAll (visit ps (ps.length + 1)) l s = .error e →
    ∃ id, e = .circular id ∧ id ∈ idsOf ps := by
  intro l
  induction l with
  | nil => intro s _ _ e h; cases h
  | cons p rest ih =>
    intro s hl hV e h
    rw [visitAll] at h
    cases hv : visit ps (ps.length + 1) p s with
    | error e' =>
      simp only [hv] at h
      cases h
      exact visit_error_classified hc (ps.length + 1) p s (hl p (List.mem_cons_self p rest))
        (by rw [hV]; exact List.nodup_nil) (by rw [hV]; intro x hx; cases hx)
        (by rw [hV]; simp) e hv
    | ok s1 =>
      simp only [hv] at h
      exact ih s1 (fun q hq => hl q (List.mem_cons_of_mem p hq))
        (by rw [visit_ok_visiting _ _ _ _ hv, hV]) e h

/-- C3 (amended): when the registry has unique ids and every declared
dependency id is registered, registering two mutually-dependent plugins
makes `initializeAllPlugins` reject with a circular-dependency error
naming a registered plugin id; the rejection happens inside
`topologicalSort`, before the lifecycle loop, so no plugin's
`onRegister` or `onInit` ever runs (the error result carries no
lifecycle events). -/
theorem initializeAllPlugins_cycle_rejects (ps : List ZapiPlugin) (A B : ZapiPlugin)
    (hnd : (idsOf ps).Nodup) (hc : DepsClosed ps) (hA : A ∈ ps) (hB : B ∈ ps)
    (hab : B.id ∈ A.deps) (hba : A.id ∈ B.deps) :
    ∃ id, initializeAllPlugins ps = .error (.circular id) ∧ id ∈ idsOf ps := by
  cases hall : visitAll (visit ps (ps.length + 1)) ps {} with
  | ok s' =>
    exact absurd hall (visitAll_pair_not_ok hnd hA hB hab hba ps {} (fun p hp => hp) hA
      ⟨List.not_mem_nil _, List.not_mem_nil _⟩ s')
  | error e =>
    obtain ⟨id, he, hid⟩ := visitAll_error_classified hc ps {} (fun p hp => hp) rfl e hall
    refine ⟨id, ?_, hid⟩
    rw [initializeAllPlugins, topologicalSort]
    simp only [hall, he]

/-- Witness for `initializeAllPlugins_cycle_rejects` on the registry
`[a (deps [b]), b (deps [a])]`. -/
theorem initializeAllPlugins_cycle_rejects_witness :
    ∃ id, initializeAllPlugins
        [{ id := "a", deps := ["b"] }, { id := "b", deps := ["a"] }] =
      .error (.circular id) ∧
      id ∈ idsOf [{ id := "a", deps := ["b"] }, { id := "b", deps := ["a"] }] :=
  initializeAllPlugins_cycle_rejects
    [{ id := "a", deps := ["b"] }, { id := "b", deps := ["a"] }]
    { id := "a", deps := ["b"] } { id := "b", deps := ["a"] }
    (by decide) (by unfold DepsClosed; decide) (by decide) (by decide)
    (by decide) (by decide)

/-- C3 (counterexample to the claim as stated): plugins `a` and `b`
depend on each other, yet because `a` also declares the unregistered
dependency `x`, which the depth-first visit reaches first,
`initializeAllPlugins` rejects with a *missing-plugin* error, not a
circular-dependency error. -/
theorem initializeAllPlugins_cycle_missing_dep_counterexample :
    "b" ∈ (ZapiPlugin.deps { id := "a", deps := ["x", "b"] }) ∧
    "a" ∈ (ZapiPlugin.deps { id := "b", deps := ["a"] }) ∧
    initializeAllPlugins [{ id := "a", deps := ["x", "b"] }, { id := "b", deps := ["a"] }] =
      .error (.missing "a" "x") := by
  refine ⟨by decide, by decide, by rfl⟩

end Zapi
